import Mathlib

/-!
Verification of the workflow-memory subsystem of the Kite repository
(src/src/memory/workflow_manager.py, src/src/memory/embedding_store.py,
src/src/memory/database.py) against its natural-language specification.

The Python code is shallowly embedded: the SQLite tables become lists of
records inside a `DBState`, SQL `INSERT`/`UPDATE` statements become pure
state transformers, floats become exact rationals, and the store-level
similarity operator (spec section 9 fixes it to cosine similarity; the SQL
text uses an operator the storage engine leaves unspecified) is a parameter
`dist` of the search operations.  `ORDER BY` is modelled as a stable sort
over the scan (insertion) order of the table, which is how SQLite returns
equal keys from a plain table scan; ties are therefore resolved by insertion
order in this model.  Python's dynamically-typed `&` operator is modelled by
`pyAnd` on tagged values, so that the `list & set` expression in
`find_similar_workflows` evaluates to the `TypeError` the interpreter raises.
-/

namespace Kite

/-! ## Stable sorting machinery

`insertBy r a l` places `a` in front of the first element `b` of `l` with
`r a b = true`, where `r a b` reads "`a` may come no later than `b`".  With a
total comparator, `sortBy` is a stable insertion sort: elements that compare
equal keep the order they had in the input list. -/

def insertBy (r : α → α → Bool) (a : α) : List α → List α
  | [] => [a]
  | b :: bs => if r a b then a :: b :: bs else b :: insertBy r a bs

def sortBy (r : α → α → Bool) : List α → List α
  | [] => []
  | a :: as => insertBy r a (sortBy r as)

theorem insertBy_perm (r : α → α → Bool) (a : α) (l : List α) :
    (insertBy r a l).Perm (a :: l) := by
  induction l with
  | nil => exact List.Perm.refl _
  | cons b bs ih =>
    by_cases h : r a b = true
    · simp [insertBy, h]
    · simp only [insertBy, h, if_false]
      exact ((ih.cons b).trans (List.Perm.swap a b bs))

theorem sortBy_perm (r : α → α → Bool) (l : List α) :
    (sortBy r l).Perm l := by
  induction l with
  | nil => exact List.Perm.refl _
  | cons a as ih => exact (insertBy_perm r a (sortBy r as)).trans (ih.cons a)

theorem mem_sortBy {r : α → α → Bool} {l : List α} {a : α} :
    a ∈ sortBy r l ↔ a ∈ l :=
  (sortBy_perm r l).mem_iff

theorem mem_insertBy {r : α → α → Bool} {x : α} {l : List α} {a : α} :
    a ∈ insertBy r x l ↔ a = x ∨ a ∈ l := by
  rw [(insertBy_perm r x l).mem_iff]; simp

/-- Inserting into a sorted list preserves both sortedness and the stability
relation: in the output, `a` comes before `b` only when `r a b`, and when the
two compare equal in both directions the auxiliary relation `s` (original
order) holds.  `x` must be `s`-before every element it can tie with. -/
theorem pairwise_insertBy (r : α → α → Bool) (s : α → α → Prop)
    (htrans : ∀ a b c, r a b = true → r b c = true → r a c = true)
    (htot : ∀ a b, r a b = true ∨ r b a = true)
    (x : α) (m : List α)
    (hsort : m.Pairwise fun a b => r a b = true)
    (hT : m.Pairwise fun a b => r a b = true ∧ (r b a = true → s a b))
    (hx : ∀ c ∈ m, s x c) :
    (insertBy r x m).Pairwise fun a b => r a b = true ∧ (r b a = true → s a b) := by
  induction m with
  | nil => simp [insertBy]
  | cons b bs ih =>
    by_cases h : r x b = true
    · simp only [insertBy, h, if_true]
      refine List.Pairwise.cons ?_ hT
      intro d hd
      rcases List.mem_cons.mp hd with rfl | hd
      · exact ⟨h, fun _ => hx d (List.mem_cons_self d bs)⟩
      · refine ⟨htrans x b d h (List.rel_of_pairwise_cons hsort hd), ?_⟩
        exact fun _ => hx d (List.mem_cons_of_mem b hd)
    · simp only [insertBy, h, if_false]
      refine List.Pairwise.cons ?_ ?_
      · intro d hd
        rcases mem_insertBy.mp hd with rfl | hd
        · rcases htot d b with hdb | hbd
          · exact absurd hdb h
          · exact ⟨hbd, fun hdb2 => absurd hdb2 h⟩
        · exact (List.pairwise_cons.mp hT).1 d hd
      · exact ih (List.pairwise_cons.mp hsort).2 (List.pairwise_cons.mp hT).2
          (fun c hc => hx c (List.mem_cons_of_mem b hc))

theorem pairwise_sortBy (r : α → α → Bool) (s : α → α → Prop)
    (htrans : ∀ a b c, r a b = true → r b c = true → r a c = true)
    (htot : ∀ a b, r a b = true ∨ r b a = true)
    (l : List α) (hs : l.Pairwise s) :
    (sortBy r l).Pairwise fun a b => r a b = true ∧ (r b a = true → s a b) := by
  induction l with
  | nil => simp [sortBy]
  | cons a as ih =>
    have tail := ih (List.pairwise_cons.mp hs).2
    have tailSorted : (sortBy r as).Pairwise fun a b => r a b = true :=
      tail.imp (fun h => h.1)
    exact pairwise_insertBy r s htrans htot a (sortBy r as) tailSorted tail
      (fun c hc => (List.pairwise_cons.mp hs).1 c (mem_sortBy.mp hc))

/-- Sortedness of the output, with no stability information. -/
theorem sortBy_sorted (r : α → α → Bool)
    (htrans : ∀ a b c, r a b = true → r b c = true → r a c = true)
    (htot : ∀ a b, r a b = true ∨ r b a = true)
    (l : List α) :
    (sortBy r l).Pairwise fun a b => r a b = true := by
  have h := pairwise_sortBy r (fun _ _ => True) htrans htot l
    (List.pairwise_iff_forall_sublist.mpr fun _ => trivial)
  exact h.imp fun hab => hab.1

/-- A list that is already sorted is left unchanged by the stable sort. -/
theorem sortBy_eq_self (r : α → α → Bool) (l : List α)
    (h : l.Pairwise fun a b => r a b = true) : sortBy r l = l := by
  induction l with
  | nil => rfl
  | cons a as ih =>
    have tail := ih (List.pairwise_cons.mp h).2
    rw [sortBy, tail]
    cases as with
    | nil => rfl
    | cons b bs =>
      have hab : r a b = true := (List.pairwise_cons.mp h).1 b (List.mem_cons_self b bs)
      simp [insertBy, hab]

/-- Sorting commutes with mapping when the comparator only looks at the
mapped image. -/
theorem sortBy_map (r : α → α → Bool) (r2 : β → β → Bool) (f : α → β)
    (hr : ∀ a b, r a b = r2 (f a) (f b)) (l : List α) :
    (sortBy r l).map f = sortBy r2 (l.map f) := by
  have hins : ∀ (x : α) (m : List α),
      (insertBy r x m).map f = insertBy r2 (f x) (m.map f) := by
    intro x m
    induction m with
    | nil => rfl
    | cons b bs ih =>
      have hcond : r2 (f x) (f b) = r x b := (hr x b).symm
      by_cases h : r x b = true
      · simp [insertBy, h, hcond]
      · simp only [insertBy, h, if_false, List.map_cons, ih, hcond]
        simp only [Bool.false_eq_true, if_false, List.map_cons, ih]
  induction l with
  | nil => rfl
  | cons a as ih => simp only [sortBy, List.map_cons, hins, ih]

/-! ## take / takeWhile / filter interchange on sorted lists -/

theorem take_takeWhile (p : α → Bool) (n : Nat) (l : List α) :
    (l.takeWhile p).take n = (l.take n).takeWhile p := by
  induction l generalizing n with
  | nil => simp
  | cons a as ih =>
    cases n with
    | zero => simp
    | succ m =>
      by_cases h : p a = true
      · simp [List.takeWhile_cons, h, List.take_succ_cons, ih]
      · simp [List.takeWhile_cons, h, List.take_succ_cons]

/-- On a sorted list, filtering by a predicate that is closed towards the
front of the order is the same as taking the longest satisfying prefix. -/
theorem filter_eq_takeWhile_of_sorted (r : α → α → Bool) (p : α → Bool)
    (hclosed : ∀ a b, r a b = true → p b = true → p a = true)
    (l : List α) (hsort : l.Pairwise fun a b => r a b = true) :
    l.filter p = l.takeWhile p := by
  induction l with
  | nil => rfl
  | cons a as ih =>
    by_cases h : p a = true
    · simp only [List.filter_cons, h, if_true, List.takeWhile_cons, h,
        ih (List.pairwise_cons.mp hsort).2]
    · have hnone : as.filter p = [] := by
        rw [List.filter_eq_nil_iff]
        intro b hb hpb
        exact h (hclosed a b (List.rel_of_pairwise_cons hsort hb) hpb)
      simp [List.filter_cons, h, List.takeWhile_cons, hnone]

/-- Every list is pairwise related by "occurs earlier": any in-order pair of
elements forms a sublist.  Used to express first-occurrence tie-breaking. -/
theorem pairwise_sublist_pair (l : List α) :
    l.Pairwise fun a b => [a, b].Sublist l := by
  induction l with
  | nil => exact List.Pairwise.nil
  | cons x t ih =>
    refine List.Pairwise.cons ?_ (ih.imp fun h => h.cons x)
    intro b hb
    exact (List.singleton_sublist.mpr hb).cons₂ x

/-! ## Keyword extraction (embedding_store.py, class KeywordExtractor)

`extract` lower-cases the text, collects the maximal alphabetic runs of at
least two characters (the regex `\b[a-zA-Z]{2,}\b`), keeps those that are
longer than two characters and not stop-words, counts occurrences, and
returns the distinct words most frequent first — ties in first-occurrence
order, which is what `collections.Counter.most_common` (a stable
`heapq.nlargest` over the insertion-ordered counter) produces — truncated to
`max_keywords`.  Characters are handled as ASCII, matching the regex. -/

def STOPWORDS : List String := [
  "a", "an", "the", "and", "or", "but", "is", "are", "was", "were",
  "be", "been", "being", "have", "has", "had", "do", "does", "did",
  "will", "would", "could", "should", "may", "might", "must", "shall",
  "can", "to", "of", "in", "for", "on", "with", "at", "by", "from",
  "as", "into", "through", "during", "before", "after", "above",
  "below", "between", "under", "again", "further", "then", "once",
  "here", "there", "when", "where", "why", "how", "all", "each",
  "few", "more", "most", "other", "some", "such", "no", "nor", "not",
  "only", "own", "same", "so", "than", "too", "very", "just", "also",
  "now", "this", "that", "these", "those", "i", "me", "my", "we", "our",
  "you", "your", "he", "him", "his", "she", "her", "it", "its", "they",
  "them", "their", "what", "which", "who", "whom", "how", "please",
  "thanks", "thank", "sorry", "help", "make", "want", "like", "know",
  "think", "take", "see", "come", "want", "use", "find", "give", "tell"]

/-- Maximal alphabetic runs of a character list, in order; `acc` holds the
(reversed) run being read. -/
def alphaRunsAux (acc : List Char) : List Char → List (List Char)
  | [] => if acc.isEmpty then [] else [acc.reverse]
  | c :: cs =>
    if c.isAlpha then alphaRunsAux (c :: acc) cs
    else if acc.isEmpty then alphaRunsAux [] cs
    else acc.reverse :: alphaRunsAux [] cs

def alphaRuns (cs : List Char) : List (List Char) := alphaRunsAux [] cs

/-- `re.findall(r'\b[a-zA-Z]{2,}\b', text.lower())`: the maximal alphabetic
runs of the lower-cased text that are at least two characters long. -/
def findWords (text : String) : List String :=
  ((alphaRuns (text.toList.map Char.toLower)).filter fun w => 2 ≤ w.length).map
    fun w => String.mk w

/-- The filtered token list the Counter runs over: words that are not
stop-words and are longer than two characters. -/
def keywordTokens (text : String) : List String :=
  (findWords text).filter fun w => !(STOPWORDS.contains w) && 2 < w.length

/-- First occurrences, in order — the key order of an insertion-ordered
Counter. -/
def dedupAux (seen : List String) : List String → List String
  | [] => []
  | a :: as =>
    if seen.contains a then dedupAux seen as else a :: dedupAux (a :: seen) as

def dedupKeys (l : List String) : List String := dedupAux [] l

theorem mem_of_mem_dedupAux {seen l : List String} {a : String}
    (h : a ∈ dedupAux seen l) : a ∈ l := by
  induction l generalizing seen with
  | nil => simp [dedupAux] at h
  | cons b bs ih =>
    by_cases hb : seen.contains b = true
    · simp only [dedupAux, hb, if_true] at h
      exact List.mem_cons_of_mem b (ih h)
    · simp only [dedupAux, hb, if_false] at h
      rcases List.mem_cons.mp h with rfl | h
      · exact List.mem_cons_self a bs
      · exact List.mem_cons_of_mem b (ih h)

namespace KeywordExtractor

/-- `KeywordExtractor.extract` (embedding_store.py lines 355-377): count the
filtered tokens and return `Counter.most_common(max_keywords)` — the
distinct words most frequent first, ties in first-occurrence order (the
stable `heapq.nlargest` over the insertion-ordered counter). -/
def extract (max_keywords : Nat) (text : String) : List String :=
  let keywords := keywordTokens text
  (sortBy (fun a b => decide (keywords.count b ≤ keywords.count a))
    (dedupKeys keywords)).take max_keywords

/-- `KeywordExtractor.extract_as_string` (embedding_store.py lines 379-390). -/
def extract_as_string (max_keywords : Nat) (text : String) : String :=
  String.intercalate "," (extract max_keywords text)

end KeywordExtractor

/-- `WorkflowManager.__init__` (workflow_manager.py line 85) builds one shared
`KeywordExtractor(max_keywords=15)` that both the indexing-time call site
(`record_workflow`, line 116) and the query-time call site
(`find_similar_workflows`, line 247) use. -/
def managerMaxKeywords : Nat := 15

/-- The keyword string stored by `record_workflow` (indexing-time call site). -/
def indexingKeywords (original_prompt : String) : String :=
  KeywordExtractor.extract_as_string managerMaxKeywords original_prompt

/-- The keyword list computed inside `find_similar_workflows` (query-time
call site). -/
def queryKeywords (prompt : String) : List String :=
  KeywordExtractor.extract managerMaxKeywords prompt

/-! ## Python dynamic values

`find_similar_workflows` evaluates `keywords & workflow_keywords` where
`keywords` is the list returned by `KeywordExtractor.extract` and
`workflow_keywords` is a set.  Python's `&` is set intersection when both
operands are sets and a TypeError for a list paired with a set, so the
operand kinds are made explicit. -/

inductive PyVal where
  | pylist (xs : List String)
  | pyset (xs : List String)
deriving DecidableEq

/-- Python's `&` on these operand kinds. -/
def pyAnd : PyVal → PyVal → Except String PyVal
  | .pyset a, .pyset b => .ok (.pyset (a.filter fun x => b.contains x))
  | _, _ => .error "TypeError: unsupported operand types for intersection of list and set"

def pyLen : PyVal → Nat
  | .pylist xs => xs.length
  | .pyset xs => xs.length

/-! ## Data model

One record type per table of section 6 of the spec; float columns become
exact rationals, JSON-serialized dicts stay opaque strings, timestamps are
clock ticks. -/

/-- One row of the `workflows` table (the Workflow dataclass). -/
structure WorkflowRow where
  id : Nat
  user_id : Nat
  category : String
  intent_type : String
  keywords : String
  original_prompt : String
  summary : String
  steps : List String
  parameters : String
  success_rate : ℚ
  success_count : Nat
  total_count : Nat
  rating : Nat
  is_template : Bool
  created_at : Nat
  updated_at : Nat
deriving DecidableEq

/-- One row of the `workflow_executions` table. -/
structure ExecRow where
  id : Nat
  workflow_id : Nat
  user_id : Nat
  status : String
  step_results : Option (List String)
  error_message : Option String
  started_at : Nat
  completed_at : Option Nat
deriving DecidableEq

/-- The metadata dict stored with a workflow embedding. -/
structure EmbMeta where
  category : String
  intent_type : String
  keywords : String
deriving DecidableEq

/-- One row of the `embeddings` table; `V` is the vector type of the
embedder. -/
structure EmbRow (V : Type) where
  content_id : Nat
  table_name : String
  content : String
  embedding : V
  metadata : Option EmbMeta
  created_at : Nat
  updated_at : Nat
deriving DecidableEq

/-- The database.  List order is rowid (scan) order, `clock` stands for
CURRENT_TIMESTAMP, and the id counters model the rowids the store assigns to
inserts. -/
structure DBState (V : Type) where
  workflows : List WorkflowRow
  executions : List ExecRow
  embeddings : List (EmbRow V)
  next_workflow_id : Nat
  next_execution_id : Nat
  clock : Nat
deriving DecidableEq

/-- Well-formed store: workflow ids are below the id counter and unique —
what the integer primary key guarantees. -/
def wfState (st : DBState V) : Prop :=
  (∀ w ∈ st.workflows, w.id < st.next_workflow_id) ∧
  (st.workflows.map fun w => w.id).Nodup

instance (st : DBState V) : Decidable (wfState st) := by
  unfold wfState; infer_instance

/-! ## Embedding store operations (embedding_store.py) -/

variable {V : Type}

/-- Does a row match the upsert key `(content_id, table_name)`? -/
def embKey (content_id : Nat) (table_name : String) (e : EmbRow V) : Bool :=
  e.content_id == content_id && e.table_name == table_name

/-- `EmbeddingStore.store_embedding` (embedding_store.py lines 86-123):
`INSERT ... ON CONFLICT(content_id, table_name) DO UPDATE` — an upsert keyed
by (content_id, table_name).  An existing row keeps its position (UPDATE
keeps rowids); a new row is appended.  When no vector is passed the content
is embedded first. -/
def store_embedding (embed : String → V) (st : DBState V) (content_id : Nat)
    (table_name : String) (content : String) (embeddingOpt : Option V)
    (metadata : Option EmbMeta) : DBState V :=
  let v := match embeddingOpt with
    | some e => e
    | none => embed content
  if st.embeddings.any (embKey content_id table_name) then
    { st with
      embeddings := st.embeddings.map fun e =>
        if embKey content_id table_name e then
          { e with content := content, embedding := v, metadata := metadata,
                   updated_at := st.clock }
        else e,
      clock := st.clock + 1 }
  else
    { st with
      embeddings := st.embeddings ++
        [{ content_id := content_id, table_name := table_name, content := content,
           embedding := v, metadata := metadata, created_at := st.clock,
           updated_at := st.clock }],
      clock := st.clock + 1 }

/-- A search hit as the SELECT of `search_similar` returns it. -/
structure SearchResult where
  content_id : Nat
  content : String
  metadata : Option EmbMeta
  similarity : ℚ
deriving DecidableEq

/-- Comparator for `ORDER BY similarity DESC`; the stable sort resolves
SQLite's unspecified tie order as scan (insertion) order. -/
def bySimilarityDesc (a b : SearchResult) : Bool :=
  decide (b.similarity ≤ a.similarity)

/-- `EmbeddingStore.search_similar` (embedding_store.py lines 125-171): the
SQL computes `1 - (embedding <=> query)` for every row of the requested
table_name, orders by that similarity descending, applies LIMIT, and the
Python list comprehension then keeps the rows with similarity ≥ threshold.
The storage-level distance operator is the parameter `dist` (spec section 9
fixes it to cosine distance). -/
def search_similar (dist : V → V → ℚ) (embed : String → V) (st : DBState V)
    (query : String) (table_name : String) (limit : Nat) (threshold : ℚ) :
    List SearchResult :=
  let qv := embed query
  let scored := (st.embeddings.filter fun e => e.table_name == table_name).map
    fun e => SearchResult.mk e.content_id e.content e.metadata (1 - dist e.embedding qv)
  ((sortBy bySimilarityDesc scored).take limit).filter
    fun r => decide (threshold ≤ r.similarity)

/-- A hit of the lexical/full-text phase, with its best-first
(lower-is-better) rank metric. -/
structure KeywordResult where
  content_id : Nat
  content : String
  relevance : ℚ
deriving DecidableEq

/-- Modelled from the spec: `EmbeddingStore.search_keyword` (embedding_store.py
lines 173-217) queries the FTS5 table `workflows_fts` with bm25 ranking, but
that table's schema (database/schema.sql) is not under src/, so the lexical
engine is the spec section 6 collaborator `match(keywords, corpusFilter) ->
ranked list` with a best-first, lower-is-better rank metric: `oracle` stands
for the ranked rows the store returns and the call's LIMIT truncates it. -/
def search_keyword (oracle : List KeywordResult) (limit : Nat) : List KeywordResult :=
  oracle.take limit

/-- One value of the `combined_scores` dict of `hybrid_search`. -/
structure HybridEntry where
  content_id : Nat
  content : String
  metadata : Option EmbMeta
  semantic_score : ℚ
  keyword_score : ℚ
  combined_score : ℚ
deriving DecidableEq

/-- Comparator for `sorted(..., key=combined_score, reverse=True)`, which is
stable among equal scores. -/
def byCombinedDesc (a b : HybridEntry) : Bool :=
  decide (b.combined_score ≤ a.combined_score)

/-- One step of the keyword loop of `hybrid_search` (lines 259-273): an id
already present has its keyword and combined scores updated in place, a new
id is appended — Python dict insertion order. -/
def hybridStep (semantic_weight keyword_weight : ℚ)
    (acc : List HybridEntry) (k : KeywordResult) : List HybridEntry :=
  if acc.any fun e => e.content_id == k.content_id then
    acc.map fun e =>
      if e.content_id == k.content_id then
        { e with keyword_score := 1 / (k.relevance + 1),
                 combined_score := e.semantic_score * semantic_weight +
                   (1 / (k.relevance + 1)) * keyword_weight }
      else e
  else
    acc ++ [{ content_id := k.content_id, content := k.content, metadata := none,
              semantic_score := 0, keyword_score := 1 / (k.relevance + 1),
              combined_score := (1 / (k.relevance + 1)) * keyword_weight }]

/-- `EmbeddingStore.hybrid_search` (embedding_store.py lines 219-281): run
the semantic search (default threshold 0.5) and the keyword search, each
capped at 2×limit; seed the dict from the semantic hits with
`combined = similarity × semantic_weight`; fold the keyword hits in; sort by
combined score descending (stable) and truncate to limit. -/
def hybrid_search (dist : V → V → ℚ) (embed : String → V) (st : DBState V)
    (query : String) (table_name : String) (limit : Nat)
    (semantic_weight keyword_weight : ℚ) (oracle : List KeywordResult) :
    List HybridEntry :=
  let semantic_results := search_similar dist embed st query table_name (limit * 2) (1/2)
  let keyword_results := search_keyword oracle (limit * 2)
  let combined := semantic_results.map fun r =>
    HybridEntry.mk r.content_id r.content r.metadata r.similarity 0
      (r.similarity * semantic_weight)
  (sortBy byCombinedDesc
    (keyword_results.foldl (hybridStep semantic_weight keyword_weight) combined)).take limit

/-! ## Workflow repository operations (workflow_manager.py) -/

/-- `WorkflowManager.record_workflow` (workflow_manager.py lines 87-146):
extract keywords, insert the row with `success_rate=1.0, success_count=1,
total_count=1`, then store the prompt+summary embedding. -/
def record_workflow (embed : String → V) (st : DBState V) (user_id : Nat)
    (category intent_type original_prompt summary : String)
    (steps : List String) (parameters : String) (is_template : Bool)
    (rating : Nat) : DBState V × Nat :=
  let keywords := KeywordExtractor.extract_as_string managerMaxKeywords original_prompt
  let wid := st.next_workflow_id
  let row : WorkflowRow :=
    { id := wid, user_id := user_id, category := category,
      intent_type := intent_type, keywords := keywords,
      original_prompt := original_prompt, summary := summary, steps := steps,
      parameters := parameters, success_rate := 1, success_count := 1,
      total_count := 1, rating := rating, is_template := is_template,
      created_at := st.clock, updated_at := st.clock }
  let st1 : DBState V :=
    { st with
      workflows := st.workflows ++ [row], next_workflow_id := wid + 1,
      clock := st.clock + 1 }
  let st2 := store_embedding embed st1 wid "workflows"
    (original_prompt ++ " " ++ summary) none
    (some { category := category, intent_type := intent_type, keywords := keywords })
  (st2, wid)

/-- Python truthiness of the optional `new_steps` argument: `None` and the
empty list are both falsy, so neither replaces the stored steps. -/
def truthySteps : Option (List String) → Option (List String)
  | some (s :: ss) => some (s :: ss)
  | _ => none

/-- `WorkflowManager.update_workflow_success` (workflow_manager.py lines
148-190): fetch the row; if absent, log a warning and return unchanged;
otherwise compute the new counters in Python and issue one UPDATE (setting
the steps too when a truthy `new_steps` was passed).  The fetch and the
update are two separate storage round-trips in the source — the interleaved
semantics lives in the `stepUpdate` development below. -/
def update_workflow_success (st : DBState V) (workflow_id : Nat)
    (was_successful : Bool) (new_steps : Option (List String)) : DBState V :=
  match st.workflows.find? fun w => w.id == workflow_id with
  | none => st
  | some w =>
    let success_count := w.success_count + (if was_successful then 1 else 0)
    let total_count := w.total_count + 1
    let success_rate : ℚ := (success_count : ℚ) / (total_count : ℚ)
    { st with
      workflows := st.workflows.map fun x =>
        if x.id == workflow_id then
          { x with success_count := success_count, total_count := total_count,
                   success_rate := success_rate, updated_at := st.clock,
                   steps := match truthySteps new_steps with
                     | some l => l
                     | none => x.steps }
        else x,
      clock := st.clock + 1 }

/-- `WorkflowManager.get_workflow` (workflow_manager.py lines 192-209). -/
def get_workflow (st : DBState V) (workflow_id : Nat) : Option WorkflowRow :=
  st.workflows.find? fun w => w.id == workflow_id

/-- `WorkflowManager.record_execution` (workflow_manager.py lines 372-422):
append the execution row; on a terminal status call
`update_workflow_success` with `was_successful = (status == completed)` and
the execution's step_results as the steps replacement; on success stamp the
execution's completed_at. -/
def record_execution (st : DBState V) (workflow_id user_id : Nat)
    (status : String) (step_results : Option (List String))
    (error_message : Option String) : DBState V × Nat :=
  let eid := st.next_execution_id
  let row : ExecRow :=
    { id := eid, workflow_id := workflow_id, user_id := user_id,
      status := status, step_results := step_results,
      error_message := error_message, started_at := st.clock,
      completed_at := none }
  let st1 : DBState V :=
    { st with
      executions := st.executions ++ [row],
      next_execution_id := eid + 1, clock := st.clock + 1 }
  if status == "completed" || status == "failed" then
    let was_successful := status == "completed"
    let st2 := update_workflow_success st1 workflow_id was_successful step_results
    if was_successful then
      ({ st2 with
         executions := st2.executions.map fun e =>
           if e.id == eid then { e with completed_at := some st2.clock } else e,
         clock := st2.clock + 1 }, eid)
    else (st2, eid)
  else (st1, eid)

/-- Comparator for the candidate fetch `ORDER BY success_rate DESC,
success_count DESC, rating DESC`; ties keep scan order. -/
def byWorkflowRank (a b : WorkflowRow) : Bool :=
  decide (b.success_rate < a.success_rate ∨ (a.success_rate = b.success_rate ∧
    (b.success_count < a.success_count ∨ (a.success_count = b.success_count ∧
      b.rating ≤ a.rating))))

/-- The lexical loop of `find_similar_workflows` (lines 249-255): per
candidate row it evaluates `keywords & workflow_keywords` — `keywords` being
the list `extract` returned and `workflow_keywords` the set built from the
stored comma-joined keywords — and keeps the row when the intersection is
non-empty. -/
def lexicalFilter (keywordsVal : PyVal) :
    List WorkflowRow → Except String (List WorkflowRow)
  | [] => .ok []
  | row :: rest =>
    match pyAnd keywordsVal (PyVal.pyset (row.keywords.splitOn ",")) with
    | .error e => .error e
    | .ok inter =>
      match lexicalFilter keywordsVal rest with
      | .error e => .error e
      | .ok rest2 => .ok (if 0 < pyLen inter then row :: rest2 else rest2)

/-- The semantic fallback loop of `find_similar_workflows` (lines 262-269):
for each hit load the workflow, append it when it exists and its id is not
already present, and stop once `limit` entries are reached. -/
def semanticLoop (st : DBState V) (limit : Nat) (acc : List WorkflowRow) :
    List SearchResult → List WorkflowRow
  | [] => acc
  | r :: rs =>
    match get_workflow st r.content_id with
    | none => semanticLoop st limit acc rs
    | some w =>
      if (acc.map fun x => x.id).contains w.id then semanticLoop st limit acc rs
      else
        let acc2 := acc ++ [w]
        if limit ≤ acc2.length then acc2 else semanticLoop st limit acc2 rs

/-- `WorkflowManager.find_similar_workflows` (workflow_manager.py lines
211-271), for a manager with an embedding store: fetch the user's
(optionally category-filtered) workflows ordered by success_rate,
success_count, rating descending, capped at 2×limit; run the keyword loop
(which evaluates a `list & set` expression); if fewer than `limit` survive,
run `search_similar` with the default threshold and append new hits; return
at most `limit` workflows. -/
def find_similar_workflows (dist : V → V → ℚ) (embed : String → V)
    (st : DBState V) (user_id : Nat) (prompt : String)
    (category : Option String) (limit : Nat) :
    Except String (List WorkflowRow) :=
  let base := st.workflows.filter fun w =>
    w.user_id == user_id && (match category with
      | some c => w.category == c
      | none => true)
  let rows := (sortBy byWorkflowRank base).take (limit * 2)
  let keywords := KeywordExtractor.extract managerMaxKeywords prompt
  match lexicalFilter (PyVal.pylist keywords) rows with
  | .error e => .error e
  | .ok workflows =>
    if workflows.length < limit then
      let semantic_results := search_similar dist embed st prompt "workflows" limit (1/2)
      .ok ((semanticLoop st limit workflows semantic_results).take limit)
    else
      .ok (workflows.take limit)

/-! ## The two storage round-trips of update_workflow_success

In the source the counter update is `await self.db.fetchone(SELECT ...)`
followed by `await self.db.execute(UPDATE ...)` with the new values computed
in Python between the two awaits and no surrounding transaction
(database.py's `transaction` context manager is never used here), so two
concurrent terminal completions of the same workflow can interleave their
round-trips.  `UpdOp` is the per-call control state: before the fetch,
after the fetch (holding the counters the SELECT returned), after the
UPDATE. -/

/-- The shared counter triple of one workflow row. -/
structure SharedCounters where
  success_count : Nat
  total_count : Nat
  success_rate : ℚ
deriving DecidableEq

inductive UpdOp where
  | pending
  | fetched (success_count total_count : Nat)
  | written
deriving DecidableEq

/-- One storage round-trip of one `update_workflow_success` call. -/
def stepUpdate (was_successful : Bool) (shared : SharedCounters) (op : UpdOp) :
    SharedCounters × UpdOp :=
  match op with
  | .pending => (shared, .fetched shared.success_count shared.total_count)
  | .fetched sc0 tc0 =>
    let success_count := sc0 + (if was_successful then 1 else 0)
    let total_count := tc0 + 1
    ({ success_count := success_count, total_count := total_count,
       success_rate := (success_count : ℚ) / (total_count : ℚ) }, .written)
  | .written => (shared, .written)

/-- Run two concurrent update calls under a schedule naming which call takes
the next round-trip (`true` = the first call). -/
def runSchedule (b1 b2 : Bool) :
    List Bool → SharedCounters → UpdOp → UpdOp → SharedCounters
  | [], shared, _, _ => shared
  | i :: rest, shared, o1, o2 =>
    if i then
      let s := stepUpdate b1 shared o1
      runSchedule b1 b2 rest s.1 s.2 o2
    else
      let s := stepUpdate b2 shared o2
      runSchedule b1 b2 rest s.1 o1 s.2

/-- What one serialized (atomic) read-modify-write does to the counters:
the increment semantics the spec requires. -/
def seqUpdate (was_successful : Bool) (c : SharedCounters) : SharedCounters :=
  let success_count := c.success_count + (if was_successful then 1 else 0)
  let total_count := c.total_count + 1
  { success_count := success_count, total_count := total_count,
    success_rate := (success_count : ℚ) / (total_count : ℚ) }

/-! ## Helper lemmas for the upsert -/

theorem find?_map_ite (p : α → Bool) (f : α → α)
    (hf : ∀ a, p a = true → p (f a) = true) (l : List α) :
    (l.map fun a => if p a then f a else a).find? p = (l.find? p).map f := by
  induction l with
  | nil => rfl
  | cons a l ih =>
    by_cases h : p a = true
    · simp [h, List.find?_cons_of_pos, hf a h]
    · have h2 : p a = false := by simpa using h
      simp [h2, List.find?_cons_of_neg, ih]

theorem length_filter_map_ite (p : α → Bool) (f : α → α)
    (hf : ∀ a, p a = true → p (f a) = true) (l : List α) :
    ((l.map fun a => if p a then f a else a).filter p).length =
      (l.filter p).length := by
  induction l with
  | nil => rfl
  | cons a l ih =>
    by_cases h : p a = true
    · simp [h, List.filter_cons, hf a h, ih]
    · have h2 : p a = false := by simpa using h
      simp [h2, List.filter_cons, ih]

theorem find?_append_of_none (p : α → Bool) (l1 l2 : List α)
    (h : l1.find? p = none) : (l1 ++ l2).find? p = l2.find? p := by
  induction l1 with
  | nil => rfl
  | cons a l ih =>
    rw [List.find?_cons] at h
    cases hpa : p a with
    | true => rw [hpa] at h; exact absurd h (by simp)
    | false =>
      rw [hpa] at h
      simpa [List.find?_cons, hpa] using ih h

/-- The upsert's update keeps the key. -/
theorem embKey_update (cid : Nat) (kind : String) (e : EmbRow V)
    (c : String) (v : V) (m : Option EmbMeta) (t : Nat) :
    embKey cid kind
      { e with content := c, embedding := v, metadata := m, updated_at := t } =
      embKey cid kind e := rfl

/-- After one `store_embedding`, exactly `max (previous count) 1` rows match
the key. -/
theorem store_embedding_key_count (embed : String → V) (st : DBState V)
    (cid : Nat) (kind : String) (c : String) (v : Option V) (m : Option EmbMeta) :
    ((store_embedding embed st cid kind c v m).embeddings.filter
        (embKey cid kind)).length =
      max ((st.embeddings.filter (embKey cid kind)).length) 1 := by
  unfold store_embedding
  by_cases h : st.embeddings.any (embKey cid kind) = true
  · simp only [h, if_true]
    rw [length_filter_map_ite (embKey cid kind) _ (fun a ha => by
      rw [embKey_update]; exact ha)]
    have hne : 0 < (st.embeddings.filter (embKey cid kind)).length := by
      rcases List.any_eq_true.mp h with ⟨a, ha, hpa⟩
      have : a ∈ st.embeddings.filter (embKey cid kind) := List.mem_filter.mpr ⟨ha, hpa⟩
      exact List.length_pos.mpr (List.ne_nil_of_mem this)
    omega
  · simp only [h, if_false]
    have hnone : ∀ a ∈ st.embeddings, ¬ embKey cid kind a = true := by
      simpa using List.any_eq_false.mp (by simpa using h)
    have hfil : st.embeddings.filter (embKey cid kind) = [] :=
      List.filter_eq_nil_iff.mpr hnone
    simp [List.filter_append, hfil, List.filter_cons, embKey]

/-- After one `store_embedding`, the row fetched for the key carries that
write's content, vector and metadata. -/
theorem store_embedding_find (embed : String → V) (st : DBState V)
    (cid : Nat) (kind : String) (c : String) (v : Option V) (m : Option EmbMeta) :
    ∃ e, (store_embedding embed st cid kind c v m).embeddings.find?
        (embKey cid kind) = some e ∧
      e.content = c ∧
      e.embedding = (match v with | some x => x | none => embed c) ∧
      e.metadata = m := by
  unfold store_embedding
  by_cases h : st.embeddings.any (embKey cid kind) = true
  · simp only [h, if_true]
    rw [find?_map_ite (embKey cid kind) _ (fun a ha => by
      rw [embKey_update]; exact ha)]
    rcases List.any_eq_true.mp h with ⟨a, ha, hpa⟩
    rcases List.find?_isSome.mpr ⟨a, ha, hpa⟩ |> Option.isSome_iff_exists.mp
      with ⟨b, hb⟩
    rw [hb]
    exact ⟨{ b with
             content := c,
             embedding := (match v with | some x => x | none => embed c),
             metadata := m, updated_at := st.clock },
           rfl, rfl, rfl, rfl⟩
  · rw [if_neg h]
    have hnone : st.embeddings.find? (embKey cid kind) = none := by
      rw [List.find?_eq_none]
      simpa using List.any_eq_false.mp (by simpa using h)
    rw [find?_append_of_none _ _ _ hnone]
    exact ⟨{ content_id := cid, table_name := kind, content := c,
             embedding := (match v with | some x => x | none => embed c),
             metadata := m, created_at := st.clock, updated_at := st.clock },
           List.find?_cons_of_pos _ (by simp [embKey]), rfl, rfl, rfl⟩

/-! ## The claims -/

/-- C2: the spec requires `update_workflow_success` to execute its counter
update as a single atomic read-modify-write, never as a read of the counters
followed by a separate write-back across two storage round-trips, with no
increment lost under two concurrent terminal completions.  The source does
the opposite — `fetchone(SELECT)` then a separate `execute(UPDATE)` with the
counters computed in Python in between, no transaction — and under the
read-read-write-write interleaving of two successful completions starting
from counters (1, 1) the final total_count is 2: one increment is lost.  The
serialized schedule gives 3, and (last conjunct) equals two sequential
atomic read-modify-writes from every start state. -/
theorem c2_lost_update_interleaving :
    (runSchedule true true [true, false, true, false]
      ⟨1, 1, 1⟩ .pending .pending).total_count = 2 ∧
    (runSchedule true true [true, true, false, false]
      ⟨1, 1, 1⟩ .pending .pending).total_count = 3 ∧
    (∀ (b1 b2 : Bool) (c : SharedCounters),
      runSchedule b1 b2 [true, true, false, false] c .pending .pending =
        seqUpdate b2 (seqUpdate b1 c)) :=
  ⟨by decide, by decide, fun b1 b2 c => rfl⟩

/-- C3: writing an embedding twice for the same (contentId, sourceKind)
leaves exactly one matching row — provided the table respected the
uniqueness invariant before — and the row fetched afterwards carries the
second write's content, vector and metadata. -/
theorem c3_store_embedding_upserts {V : Type} (embed : String → V)
    (st : DBState V) (cid : Nat) (kind : String) (c1 c2 : String)
    (v1 v2 : Option V) (m1 m2 : Option EmbMeta)
    (h : (st.embeddings.filter (embKey cid kind)).length ≤ 1) :
    ((store_embedding embed (store_embedding embed st cid kind c1 v1 m1)
        cid kind c2 v2 m2).embeddings.filter (embKey cid kind)).length = 1 ∧
    ∃ e, (store_embedding embed (store_embedding embed st cid kind c1 v1 m1)
        cid kind c2 v2 m2).embeddings.find? (embKey cid kind) = some e ∧
      e.content = c2 ∧
      e.embedding = (match v2 with | some x => x | none => embed c2) ∧
      e.metadata = m2 := by
  constructor
  · rw [store_embedding_key_count, store_embedding_key_count]
    omega
  · exact store_embedding_find embed _ cid kind c2 v2 m2

/-- Witness for C3: the empty store upserted twice for (7, "workflows"). -/
theorem c3_store_embedding_upserts_witness :
    ((⟨[], [], [], 1, 1, 0⟩ : DBState Unit).embeddings.filter
        (embKey 7 "workflows")).length ≤ 1 ∧
    (((store_embedding (fun _ => ())
        (store_embedding (fun _ => ()) (⟨[], [], [], 1, 1, 0⟩ : DBState Unit)
          7 "workflows" "first text" none none)
        7 "workflows" "second text" none
        (some ⟨"linkedin", "connect", "alpha"⟩)).embeddings.filter
          (embKey 7 "workflows")).length = 1 ∧
     ∃ e, (store_embedding (fun _ => ())
        (store_embedding (fun _ => ()) (⟨[], [], [], 1, 1, 0⟩ : DBState Unit)
          7 "workflows" "first text" none none)
        7 "workflows" "second text" none
        (some ⟨"linkedin", "connect", "alpha"⟩)).embeddings.find?
          (embKey 7 "workflows") = some e ∧
      e.content = "second text" ∧
      e.embedding = (match (none : Option Unit) with | some x => x | none => ()) ∧
      e.metadata = some ⟨"linkedin", "connect", "alpha"⟩) :=
  ⟨by decide,
   c3_store_embedding_upserts (fun _ => ()) ⟨[], [], [], 1, 1, 0⟩ 7 "workflows"
     "first text" "second text" none none none
     (some ⟨"linkedin", "connect", "alpha"⟩) (by decide)⟩

/-- The concrete candidate workflow for C4. -/
def c4_candidate : WorkflowRow :=
  { id := 1, user_id := 1, category := "linkedin", intent_type := "connect",
    keywords := "alpha,bravo", original_prompt := "alpha bravo", summary := "s",
    steps := ["step one"], parameters := "", success_rate := 1,
    success_count := 1, total_count := 1, rating := 5, is_template := false,
    created_at := 0, updated_at := 0 }

/-- A store holding that one workflow. -/
def c4_store : DBState Unit := ⟨[c4_candidate], [], [], 2, 1, 0⟩

/-- C4: the lexical phase is supposed to keep the fetched candidates whose
stored keyword set intersects the query keyword set.  In the source,
`keywords` is the list `extract` returns, so `keywords & workflow_keywords`
is `list & set`, which Python rejects: as soon as one candidate row is
fetched the loop raises TypeError instead of filtering — here at a store
holding a single matching workflow of the querying user. -/
theorem c4_lexical_phase_raises_type_error :
    find_similar_workflows (fun _ _ => 0) (fun _ => ()) c4_store 1
      "alpha things" none 5 =
      .error "TypeError: unsupported operand types for intersection of list and set" :=
  rfl

/-- Execution ids already stored are below the id counter (what the integer
primary key of workflow_executions guarantees). -/
def wfExec (st : DBState V) : Prop :=
  ∀ e ∈ st.executions, e.id < st.next_execution_id

instance (st : DBState V) : Decidable (wfExec st) := by
  unfold wfExec; infer_instance

/-- C7 counterexample: at a store with no workflow at all, `record_execution`
for the nonexistent workflow 42 still inserts an execution row — the whole
operation is not a no-op, refuting "no row is inserted or modified in any
table". -/
theorem c7_execution_row_inserted :
    ((⟨[], [], [], 1, 1, 0⟩ : DBState Unit).workflows.find?
        (fun w => w.id == 42) = none) ∧
    ((record_execution (⟨[], [], [], 1, 1, 0⟩ : DBState Unit) 42 7 "completed"
        none none).1.executions).length = 1 := by
  constructor
  · rfl
  · decide

/-- C7 amended: referencing a nonexistent workflowId is absorbed without an
error, and `update_workflow_success` alone is a complete no-op; but
`record_execution` still appends its execution row (only the counter update
is absorbed) — the workflows and embeddings tables are untouched and exactly
one execution row for (workflow_id, user_id, status) is appended. -/
theorem c7_notfound_noop {V : Type} (st : DBState V) (workflow_id user_id : Nat)
    (status : String) (step_results : Option (List String))
    (error_message : Option String) (was : Bool) (new_steps : Option (List String))
    (hmiss : st.workflows.find? (fun w => w.id == workflow_id) = none)
    (hex : wfExec st) :
    update_workflow_success st workflow_id was new_steps = st ∧
    (record_execution st workflow_id user_id status step_results
        error_message).1.workflows = st.workflows ∧
    (record_execution st workflow_id user_id status step_results
        error_message).1.embeddings = st.embeddings ∧
    ∃ e : ExecRow,
      (record_execution st workflow_id user_id status step_results
          error_message).1.executions = st.executions ++ [e] ∧
      e.workflow_id = workflow_id ∧ e.user_id = user_id ∧ e.status = status := by
  have hset : ∀ (exs : List ExecRow) (nei cl : Nat) (was2 : Bool)
      (ns2 : Option (List String)),
      update_workflow_success
        ({ workflows := st.workflows, executions := exs,
           embeddings := st.embeddings, next_workflow_id := st.next_workflow_id,
           next_execution_id := nei, clock := cl } : DBState V)
        workflow_id was2 ns2 =
        { workflows := st.workflows, executions := exs,
          embeddings := st.embeddings, next_workflow_id := st.next_workflow_id,
          next_execution_id := nei, clock := cl } := by
    intro exs nei cl was2 ns2
    simp only [update_workflow_success, hmiss]
  have hold : ∀ t : Nat, st.executions.map (fun e =>
      if e.id == st.next_execution_id
      then { e with completed_at := some t } else e) = st.executions := by
    intro t
    have h1 : st.executions.map (fun e =>
        if e.id == st.next_execution_id
        then { e with completed_at := some t } else e) = st.executions.map id :=
      List.map_congr_left (fun e he => by
        have hne : e.id ≠ st.next_execution_id := Nat.ne_of_lt (hex e he)
        simp [hne])
    simpa using h1
  refine ⟨by simp only [update_workflow_success, hmiss], ?_⟩
  unfold record_execution
  by_cases hterm : (status == "completed" || status == "failed") = true
  · simp only [hterm, if_true, hset]
    by_cases hc : (status == "completed") = true
    · simp only [hc, if_true]
      refine ⟨by simp, by simp, ?_⟩
      refine ⟨{ id := st.next_execution_id, workflow_id := workflow_id,
                user_id := user_id, status := status,
                step_results := step_results, error_message := error_message,
                started_at := st.clock,
                completed_at := some (st.clock + 1) }, ?_, rfl, rfl, rfl⟩
      simp only [List.map_append, hold]
      simp
    · simp only [hc, if_false]
      refine ⟨by simp, by simp, ?_⟩
      exact ⟨{ id := st.next_execution_id, workflow_id := workflow_id,
               user_id := user_id, status := status,
               step_results := step_results, error_message := error_message,
               started_at := st.clock, completed_at := none },
             rfl, rfl, rfl, rfl⟩
  · simp only [hterm, if_false]
    refine ⟨by simp, by simp, ?_⟩
    exact ⟨{ id := st.next_execution_id, workflow_id := workflow_id,
             user_id := user_id, status := status,
             step_results := step_results, error_message := error_message,
             started_at := st.clock, completed_at := none },
           rfl, rfl, rfl, rfl⟩

/-- Witness for C7 at the empty store and workflow id 42. -/
theorem c7_notfound_noop_witness :
    (((⟨[], [], [], 1, 1, 0⟩ : DBState Unit).workflows.find?
        (fun w => w.id == 42) = none) ∧
     wfExec (⟨[], [], [], 1, 1, 0⟩ : DBState Unit)) ∧
    (update_workflow_success (⟨[], [], [], 1, 1, 0⟩ : DBState Unit) 42 true none =
        (⟨[], [], [], 1, 1, 0⟩ : DBState Unit) ∧
     (record_execution (⟨[], [], [], 1, 1, 0⟩ : DBState Unit) 42 7 "failed"
        none none).1.workflows = (⟨[], [], [], 1, 1, 0⟩ : DBState Unit).workflows ∧
     (record_execution (⟨[], [], [], 1, 1, 0⟩ : DBState Unit) 42 7 "failed"
        none none).1.embeddings = (⟨[], [], [], 1, 1, 0⟩ : DBState Unit).embeddings ∧
     ∃ e : ExecRow,
       (record_execution (⟨[], [], [], 1, 1, 0⟩ : DBState Unit) 42 7 "failed"
          none none).1.executions =
         (⟨[], [], [], 1, 1, 0⟩ : DBState Unit).executions ++ [e] ∧
       e.workflow_id = 42 ∧ e.user_id = 7 ∧ e.status = "failed") :=
  ⟨⟨rfl, by decide⟩,
   c7_notfound_noop (⟨[], [], [], 1, 1, 0⟩ : DBState Unit) 42 7 "failed"
     none none true none rfl (by decide)⟩

/-- C9 counterexample: at the query-time call site the keyword cap is not
10 — a prompt with eleven distinct keywords keeps all eleven, because
`find_similar_workflows` reuses the manager's single
`KeywordExtractor(max_keywords=15)` rather than one with the default K=10. -/
theorem c9_query_keyword_cap_not_10 :
    (queryKeywords
      "alpha bravo charlie delta echo foxtrot golf hotel india juliet kilo").length
      = 11 ∧
    ¬ (queryKeywords
      "alpha bravo charlie delta echo foxtrot golf hotel india juliet kilo").length
      ≤ 10 := by
  constructor
  · decide
  · decide

/-- C9 amended: both call sites — `find_similar_workflows` (query time) and
`record_workflow` (indexing time) — run the same extraction with the same
cap K = 15 (the manager's one shared extractor), and that extraction: keeps
at most K words; keeps only non-stop-words longer than two characters among
the lower-cased alphabetic tokens; ranks by frequency descending; and breaks
frequency ties by first occurrence. -/
theorem c9_extraction_call_sites (text : String) :
    queryKeywords text = KeywordExtractor.extract managerMaxKeywords text ∧
    indexingKeywords text =
      String.intercalate "," (KeywordExtractor.extract managerMaxKeywords text) ∧
    managerMaxKeywords = 15 ∧
    (KeywordExtractor.extract managerMaxKeywords text).length ≤ 15 ∧
    (∀ w ∈ KeywordExtractor.extract managerMaxKeywords text,
      w ∈ keywordTokens text ∧ 2 < w.length ∧ w ∉ STOPWORDS) ∧
    (KeywordExtractor.extract managerMaxKeywords text).Pairwise
      (fun a b => (keywordTokens text).count b ≤ (keywordTokens text).count a) ∧
    (KeywordExtractor.extract managerMaxKeywords text).Pairwise
      (fun a b => (keywordTokens text).count a = (keywordTokens text).count b →
        [a, b].Sublist (dedupKeys (keywordTokens text))) := by
  set toks := keywordTokens text with htoks
  have htrans : ∀ a b c : String,
      decide (toks.count b ≤ toks.count a) = true →
      decide (toks.count c ≤ toks.count b) = true →
      decide (toks.count c ≤ toks.count a) = true := by
    intro a b c h1 h2
    exact decide_eq_true (le_trans (of_decide_eq_true h2) (of_decide_eq_true h1))
  have htot : ∀ a b : String,
      decide (toks.count b ≤ toks.count a) = true ∨
      decide (toks.count a ≤ toks.count b) = true := by
    intro a b
    rcases le_total (toks.count b) (toks.count a) with h | h
    · exact Or.inl (decide_eq_true h)
    · exact Or.inr (decide_eq_true h)
  have hpair := pairwise_sortBy
    (fun a b => decide (toks.count b ≤ toks.count a))
    (fun a b => [a, b].Sublist (dedupKeys toks)) htrans htot
    (dedupKeys toks) (pairwise_sublist_pair _)
  have hsub : (KeywordExtractor.extract managerMaxKeywords text).Sublist
      (sortBy (fun a b => decide (toks.count b ≤ toks.count a)) (dedupKeys toks)) := by
    simpa [KeywordExtractor.extract, htoks] using
      (List.take_sublist managerMaxKeywords _)
  have hpairTake := hpair.sublist hsub
  refine ⟨rfl, rfl, rfl, ?_, ?_, ?_, ?_⟩
  · simpa [KeywordExtractor.extract] using
      (Nat.min_le_left managerMaxKeywords _).trans (le_of_eq rfl) |>.trans
        (by norm_num [managerMaxKeywords])
  · intro w hw
    have hmem : w ∈ dedupKeys toks := by
      have h1 : w ∈ sortBy (fun a b => decide (toks.count b ≤ toks.count a))
          (dedupKeys toks) := hsub.subset hw
      exact mem_sortBy.mp h1
    have htok : w ∈ toks := mem_of_mem_dedupAux hmem
    have hdecomp : w ∈ findWords text ∧ w ∉ STOPWORDS ∧ 2 < w.length := by
      simpa [keywordTokens, htoks, List.mem_filter] using htok
    exact ⟨htok, hdecomp.2.2, hdecomp.2.1⟩
  · exact hpairTake.imp fun h => of_decide_eq_true h.1
  · exact hpairTake.imp fun h heq => h.2 (decide_eq_true (le_of_eq heq))

theorem bySimilarityDesc_trans : ∀ a b c : SearchResult,
    bySimilarityDesc a b = true → bySimilarityDesc b c = true →
    bySimilarityDesc a c = true := by
  intro a b c h1 h2
  exact decide_eq_true (le_trans (of_decide_eq_true h2) (of_decide_eq_true h1))

theorem bySimilarityDesc_total : ∀ a b : SearchResult,
    bySimilarityDesc a b = true ∨ bySimilarityDesc b a = true := by
  intro a b
  rcases le_total b.similarity a.similarity with h | h
  · exact Or.inl (decide_eq_true h)
  · exact Or.inr (decide_eq_true h)

/-- On a sorted list, capping and then filtering by a front-closed predicate
is the same as filtering everything and then capping. -/
theorem filter_take_sorted (r : α → α → Bool) (p : α → Bool)
    (htrans : ∀ a b c, r a b = true → r b c = true → r a c = true)
    (htot : ∀ a b, r a b = true ∨ r b a = true)
    (hclosed : ∀ a b, r a b = true → p b = true → p a = true)
    (l : List α) (n : Nat) :
    ((sortBy r l).take n).filter p = ((sortBy r l).filter p).take n := by
  have hsorted := sortBy_sorted r htrans htot l
  have hsortedTake := hsorted.sublist (List.take_sublist n _)
  rw [filter_eq_takeWhile_of_sorted r p hclosed _ hsortedTake,
      filter_eq_takeWhile_of_sorted r p hclosed _ hsorted,
      take_takeWhile]

/-- C5 amended: `search_similar` equals the pipeline that filters by the
threshold over ALL stored records of the sourceKind first and caps to
`limit` afterwards — the SQL applies LIMIT before the Python threshold
filter, but because the rows are similarity-sorted the two orders coincide,
so a result is shorter than `limit` only when fewer than `limit` records
meet the threshold.  Ties, however, are returned in the store's scan
(insertion) order, not contentId-ascending (see the counterexample). -/
theorem c5_threshold_filter_commutes_with_cap {V : Type} (dist : V → V → ℚ)
    (embed : String → V) (st : DBState V) (query table_name : String)
    (limit : Nat) (threshold : ℚ) :
    search_similar dist embed st query table_name limit threshold =
      ((sortBy bySimilarityDesc ((st.embeddings.filter fun e =>
          e.table_name == table_name).map fun e =>
            SearchResult.mk e.content_id e.content e.metadata
              (1 - dist e.embedding (embed query)))).filter
        fun r => decide (threshold ≤ r.similarity)).take limit := by
  unfold search_similar
  exact filter_take_sorted bySimilarityDesc _ bySimilarityDesc_trans
    bySimilarityDesc_total
    (fun a b hab hpb => decide_eq_true
      (le_trans (of_decide_eq_true hpb) (of_decide_eq_true hab)))
    _ limit

/-- The two embedding rows of the C5 counterexample, stored with content_id
5 first and 3 second; all vectors equal, so every similarity is exactly 1. -/
def c5_row_five : EmbRow Unit := ⟨5, "workflows", "text five", (), none, 0, 0⟩

def c5_row_three : EmbRow Unit := ⟨3, "workflows", "text three", (), none, 1, 1⟩

def c5_store : DBState Unit := ⟨[], [], [c5_row_five, c5_row_three], 1, 1, 2⟩

/-- C5 counterexample: both stored vectors equal the query vector (cosine
distance 0, similarity exactly 1 - 0 = 1), so the two hits tie on
similarity; the code returns them in scan order — content_id 5 before 3 —
not sorted by contentId ascending as the claim states, which would be
[3, 5]. -/
theorem c5_ties_keep_scan_order :
    (search_similar (fun _ _ => 0) (fun _ => ()) c5_store "q" "workflows" 2 0).map
        (fun r => (r.content_id, r.similarity)) = [(5, 1), (3, 1)] ∧
    (search_similar (fun _ _ => 0) (fun _ => ()) c5_store "q" "workflows" 2 0).map
        (fun r => r.content_id) ≠ [3, 5] := by
  constructor
  · norm_num [search_similar, c5_store, c5_row_five, c5_row_three, sortBy,
      insertBy, bySimilarityDesc]
  · norm_num [search_similar, c5_store, c5_row_five, c5_row_three, sortBy,
      insertBy, bySimilarityDesc]

/-- `store_embedding` writes the embeddings table only. -/
theorem store_embedding_workflows (embed : String → V) (st : DBState V)
    (cid : Nat) (kind c : String) (v : Option V) (m : Option EmbMeta) :
    (store_embedding embed st cid kind c v m).workflows = st.workflows := by
  unfold store_embedding
  by_cases h : st.embeddings.any (embKey cid kind) = true
  · rw [if_pos h]
  · rw [if_neg h]

/-- What one `record_execution` with a terminal status does to the workflows
table, when the workflow exists: every row with the id gets the counters
computed from the fetched row `w`, the recomputed rate, the new updated_at,
and the steps replacement when the execution's step_results are truthy;
nothing else changes, and the embeddings table is untouched. -/
theorem record_execution_workflows {V : Type} (st : DBState V) (wid uid : Nat)
    (status : String) (sr : Option (List String)) (em : Option String)
    (w : WorkflowRow)
    (hfind : st.workflows.find? (fun x => x.id == wid) = some w)
    (hterm : status = "completed" ∨ status = "failed") :
    (record_execution st wid uid status sr em).1.workflows =
      st.workflows.map (fun x =>
        if x.id == wid then
          { x with
            success_count := w.success_count +
              (if (status == "completed") = true then 1 else 0),
            total_count := w.total_count + 1,
            success_rate := ((w.success_count +
              (if (status == "completed") = true then 1 else 0) : Nat) : ℚ) /
              ((w.total_count + 1 : Nat) : ℚ),
            updated_at := st.clock + 1,
            steps := (match truthySteps sr with | some l => l | none => x.steps) }
        else x) ∧
    (record_execution st wid uid status sr em).1.embeddings = st.embeddings := by
  have hupdate : ∀ (b : Bool) (exs : List ExecRow) (nei cl : Nat),
      update_workflow_success
        ({ workflows := st.workflows, executions := exs,
           embeddings := st.embeddings, next_workflow_id := st.next_workflow_id,
           next_execution_id := nei, clock := cl } : DBState V)
        wid b sr =
        { workflows := st.workflows.map (fun x =>
            if x.id == wid then
              { x with
                success_count := w.success_count + (if b = true then 1 else 0),
                total_count := w.total_count + 1,
                success_rate := ((w.success_count +
                  (if b = true then 1 else 0) : Nat) : ℚ) /
                  ((w.total_count + 1 : Nat) : ℚ),
                updated_at := cl,
                steps := (match truthySteps sr with | some l => l | none => x.steps) }
            else x),
          executions := exs, embeddings := st.embeddings,
          next_workflow_id := st.next_workflow_id, next_execution_id := nei,
          clock := cl + 1 } := by
    intro b exs nei cl
    simp only [update_workflow_success, hfind]
  unfold record_execution
  rcases hterm with rfl | rfl
  · simp only [hupdate]
    norm_num
  · have h1 : (("failed" : String) == "completed") = false := rfl
    simp only [h1, hupdate]
    norm_num

/-- C8: recording a terminal execution without step_results leaves every
workflow row's steps — and every other non-statistics field — unchanged: the
workflows table afterwards is exactly the old table with the matching row's
success_count, total_count, success_rate and updated_at replaced, and the
embeddings table is untouched. -/
theorem c8_steps_frame {V : Type} (st : DBState V) (wid uid : Nat)
    (status : String) (em : Option String) (w : WorkflowRow)
    (hfind : st.workflows.find? (fun x => x.id == wid) = some w)
    (hterm : status = "completed" ∨ status = "failed") :
    (record_execution st wid uid status none em).1.workflows =
      st.workflows.map (fun x =>
        if x.id == wid then
          { x with
            success_count := w.success_count +
              (if (status == "completed") = true then 1 else 0),
            total_count := w.total_count + 1,
            success_rate := ((w.success_count +
              (if (status == "completed") = true then 1 else 0) : Nat) : ℚ) /
              ((w.total_count + 1 : Nat) : ℚ),
            updated_at := st.clock + 1 }
        else x) ∧
    (record_execution st wid uid status none em).1.embeddings = st.embeddings :=
  record_execution_workflows st wid uid status none em w hfind hterm

/-- Witness for C8: one stored workflow, one failed execution. -/
theorem c8_steps_frame_witness :
    ((⟨[c4_candidate], [], [], 2, 1, 0⟩ : DBState Unit).workflows.find?
        (fun x => x.id == 1) = some c4_candidate) ∧
    ((record_execution (⟨[c4_candidate], [], [], 2, 1, 0⟩ : DBState Unit) 1 7
        "failed" none none).1.workflows =
      (⟨[c4_candidate], [], [], 2, 1, 0⟩ : DBState Unit).workflows.map (fun x =>
        if x.id == 1 then
          { x with
            success_count := c4_candidate.success_count +
              (if (("failed" : String) == "completed") = true then 1 else 0),
            total_count := c4_candidate.total_count + 1,
            success_rate := ((c4_candidate.success_count +
              (if (("failed" : String) == "completed") = true then 1 else 0) : Nat) : ℚ) /
              ((c4_candidate.total_count + 1 : Nat) : ℚ),
            updated_at := (⟨[c4_candidate], [], [], 2, 1, 0⟩ : DBState Unit).clock + 1 }
        else x) ∧
     (record_execution (⟨[c4_candidate], [], [], 2, 1, 0⟩ : DBState Unit) 1 7
        "failed" none none).1.embeddings =
      (⟨[c4_candidate], [], [], 2, 1, 0⟩ : DBState Unit).embeddings) :=
  ⟨rfl, c8_steps_frame (⟨[c4_candidate], [], [], 2, 1, 0⟩ : DBState Unit) 1 7
    "failed" none c4_candidate rfl (Or.inr rfl)⟩

/-- The row fetched for the workflow id right after a terminal
`record_execution`: counters bumped from the fetched row, rate recomputed,
steps replaced only by truthy step_results. -/
theorem record_execution_find {V : Type} (st : DBState V) (wid uid : Nat)
    (status : String) (sr : Option (List String)) (em : Option String)
    (w : WorkflowRow)
    (hfind : st.workflows.find? (fun x => x.id == wid) = some w)
    (hterm : status = "completed" ∨ status = "failed") :
    (record_execution st wid uid status sr em).1.workflows.find?
        (fun x => x.id == wid) =
      some { w with
        success_count := w.success_count +
          (if (status == "completed") = true then 1 else 0),
        total_count := w.total_count + 1,
        success_rate := ((w.success_count +
          (if (status == "completed") = true then 1 else 0) : Nat) : ℚ) /
          ((w.total_count + 1 : Nat) : ℚ),
        updated_at := st.clock + 1,
        steps := (match truthySteps sr with | some l => l | none => w.steps) } := by
  rw [(record_execution_workflows st wid uid status sr em w hfind hterm).1]
  rw [find?_map_ite (fun x : WorkflowRow => x.id == wid)
    (fun x : WorkflowRow => ({ x with
      success_count := w.success_count +
        (if (status == "completed") = true then 1 else 0),
      total_count := w.total_count + 1,
      success_rate := ((w.success_count +
        (if (status == "completed") = true then 1 else 0) : Nat) : ℚ) /
        ((w.total_count + 1 : Nat) : ℚ),
      updated_at := st.clock + 1,
      steps := (match truthySteps sr with
        | some l => l
        | none => x.steps) } : WorkflowRow))
    (fun a ha => ha), hfind]
  rfl

/-- The row fetched for the fresh id right after `record_workflow`. -/
theorem record_workflow_find {V : Type} (embed : String → V) (st : DBState V)
    (uid : Nat) (cat it op su : String) (steps : List String) (params : String)
    (temp : Bool) (rating : Nat) (hwf : wfState st) :
    (record_workflow embed st uid cat it op su steps params temp
        rating).1.workflows.find?
      (fun x => x.id ==
        (record_workflow embed st uid cat it op su steps params temp rating).2) =
      some { id := st.next_workflow_id, user_id := uid, category := cat,
             intent_type := it,
             keywords := KeywordExtractor.extract_as_string managerMaxKeywords op,
             original_prompt := op, summary := su, steps := steps,
             parameters := params, success_rate := 1, success_count := 1,
             total_count := 1, rating := rating, is_template := temp,
             created_at := st.clock, updated_at := st.clock } := by
  simp only [record_workflow]
  rw [store_embedding_workflows]
  have hnone : st.workflows.find? (fun x => x.id == st.next_workflow_id) = none := by
    rw [List.find?_eq_none]
    intro x hx
    simp [Nat.ne_of_lt (hwf.1 x hx)]
  rw [find?_append_of_none _ _ _ hnone]
  rw [List.find?_cons_of_pos _ (by simp)]

/-- Run a list of (status, step_results) executions against one workflow. -/
def runExecutions (st : DBState V) (workflow_id user_id : Nat) :
    List (String × Option (List String)) → DBState V
  | [] => st
  | e :: es => runExecutions
      (record_execution st workflow_id user_id e.1 e.2 none).1 workflow_id user_id es

/-- Folding terminal executions over a workflow whose rate is its
success/total quotient adds one to total_count per execution and one to
success_count per completed execution, keeping the quotient invariant. -/
theorem runExecutions_find {V : Type} (wid uid : Nat)
    (execs : List (String × Option (List String))) :
    ∀ (st : DBState V) (w : WorkflowRow),
      st.workflows.find? (fun x => x.id == wid) = some w →
      (∀ e ∈ execs, e.1 = "completed" ∨ e.1 = "failed") →
      w.success_rate = (w.success_count : ℚ) / (w.total_count : ℚ) →
      ∃ w2, (runExecutions st wid uid execs).workflows.find?
          (fun x => x.id == wid) = some w2 ∧
        w2.success_count = w.success_count +
          (execs.filter fun e => e.1 == "completed").length ∧
        w2.total_count = w.total_count + execs.length ∧
        w2.success_rate = (w2.success_count : ℚ) / (w2.total_count : ℚ) := by
  induction execs with
  | nil =>
    intro st w hfind hterm hrate
    exact ⟨w, hfind, by simp, by simp, hrate⟩
  | cons e es ih =>
    intro st w hfind hterm hrate
    have hterm1 := hterm e (List.mem_cons_self e es)
    have hnext := record_execution_find st wid uid e.1 e.2 none w hfind hterm1
    have hrate1 : ({ w with
        success_count := w.success_count +
          (if (e.1 == "completed") = true then 1 else 0),
        total_count := w.total_count + 1,
        success_rate := ((w.success_count +
          (if (e.1 == "completed") = true then 1 else 0) : Nat) : ℚ) /
          ((w.total_count + 1 : Nat) : ℚ),
        updated_at := st.clock + 1,
        steps := (match truthySteps e.2 with
          | some l => l
          | none => w.steps) } : WorkflowRow).success_rate =
        (({ w with
        success_count := w.success_count +
          (if (e.1 == "completed") = true then 1 else 0),
        total_count := w.total_count + 1,
        success_rate := ((w.success_count +
          (if (e.1 == "completed") = true then 1 else 0) : Nat) : ℚ) /
          ((w.total_count + 1 : Nat) : ℚ),
        updated_at := st.clock + 1,
        steps := (match truthySteps e.2 with
          | some l => l
          | none => w.steps) } : WorkflowRow).success_count : ℚ) /
        (({ w with
        success_count := w.success_count +
          (if (e.1 == "completed") = true then 1 else 0),
        total_count := w.total_count + 1,
        success_rate := ((w.success_count +
          (if (e.1 == "completed") = true then 1 else 0) : Nat) : ℚ) /
          ((w.total_count + 1 : Nat) : ℚ),
        updated_at := st.clock + 1,
        steps := (match truthySteps e.2 with
          | some l => l
          | none => w.steps) } : WorkflowRow).total_count : ℚ) := rfl
    rcases ih _ _ hnext (fun x hx => hterm x (List.mem_cons_of_mem e hx)) hrate1
      with ⟨w2, hfind2, hsc, htc, hrate2⟩
    refine ⟨w2, ?_, ?_, ?_, hrate2⟩
    · rw [runExecutions]
      exact hfind2
    · rw [hsc]
      simp only [List.filter_cons]
      by_cases hc : (e.1 == "completed") = true
      · simp only [hc, if_true, if_pos, List.length_cons]
        omega
      · simp only [hc, if_false]
        simp only [Bool.false_eq_true, if_false]
        omega
    · rw [htc]
      simp only [List.length_cons]
      omega

/-- C1: a freshly recorded workflow has `success_count = 1`,
`total_count = 1`, `success_rate = 1.0`; after N terminal
`record_execution` calls of which k have status 'completed',
`total_count = N+1`, `success_count = k+1` and
`success_rate = success_count / total_count` exactly (rationals standing
for the stored floats). -/
theorem c1_success_statistics {V : Type} (embed : String → V) (st0 : DBState V)
    (uid : Nat) (cat it op su : String) (steps : List String) (params : String)
    (temp : Bool) (rating : Nat) (uid2 : Nat)
    (execs : List (String × Option (List String)))
    (st1 : DBState V) (wid : Nat)
    (hwf : wfState st0)
    (hrec : record_workflow embed st0 uid cat it op su steps params temp rating =
      (st1, wid))
    (hterm : ∀ e ∈ execs, e.1 = "completed" ∨ e.1 = "failed") :
    (∃ w1, st1.workflows.find? (fun x => x.id == wid) = some w1 ∧
      w1.success_count = 1 ∧ w1.total_count = 1 ∧ w1.success_rate = 1) ∧
    (∃ w2, (runExecutions st1 wid uid2 execs).workflows.find?
        (fun x => x.id == wid) = some w2 ∧
      w2.total_count = execs.length + 1 ∧
      w2.success_count = (execs.filter fun e => e.1 == "completed").length + 1 ∧
      w2.success_rate = (w2.success_count : ℚ) / (w2.total_count : ℚ)) := by
  have hfind := record_workflow_find embed st0 uid cat it op su steps params
    temp rating hwf
  rw [hrec] at hfind
  constructor
  · exact ⟨_, hfind, rfl, rfl, rfl⟩
  · rcases runExecutions_find wid uid2 execs st1 _ hfind hterm (by norm_num)
      with ⟨w2, hfind2, hsc, htc, hrate2⟩
    refine ⟨w2, hfind2, ?_, ?_, hrate2⟩
    · rw [htc]
      simp only []
      omega
    · rw [hsc]
      simp only []
      omega

/-- Witness for C1: record a workflow into the empty store and run the spec
scenario (success, fail, success), expecting counters 4, 3 and rate 3/4. -/
theorem c1_success_statistics_witness :
    (wfState (⟨[], [], [], 1, 1, 0⟩ : DBState Unit) ∧
     record_workflow (fun _ => ()) (⟨[], [], [], 1, 1, 0⟩ : DBState Unit) 1
       "linkedin" "connect" "alpha bravo" "done" ["s1"] "" false 5 =
       ((record_workflow (fun _ => ()) (⟨[], [], [], 1, 1, 0⟩ : DBState Unit) 1
         "linkedin" "connect" "alpha bravo" "done" ["s1"] "" false 5).1,
        (record_workflow (fun _ => ()) (⟨[], [], [], 1, 1, 0⟩ : DBState Unit) 1
         "linkedin" "connect" "alpha bravo" "done" ["s1"] "" false 5).2) ∧
     (∀ e ∈ ([("completed", none), ("failed", none), ("completed", none)] :
        List (String × Option (List String))),
       e.1 = "completed" ∨ e.1 = "failed")) ∧
    ((∃ w1, (record_workflow (fun _ => ()) (⟨[], [], [], 1, 1, 0⟩ : DBState Unit) 1
        "linkedin" "connect" "alpha bravo" "done" ["s1"] "" false 5).1.workflows.find?
          (fun x => x.id ==
            (record_workflow (fun _ => ()) (⟨[], [], [], 1, 1, 0⟩ : DBState Unit) 1
              "linkedin" "connect" "alpha bravo" "done" ["s1"] "" false 5).2) =
            some w1 ∧
      w1.success_count = 1 ∧ w1.total_count = 1 ∧ w1.success_rate = 1) ∧
    (∃ w2, (runExecutions
        (record_workflow (fun _ => ()) (⟨[], [], [], 1, 1, 0⟩ : DBState Unit) 1
          "linkedin" "connect" "alpha bravo" "done" ["s1"] "" false 5).1
        (record_workflow (fun _ => ()) (⟨[], [], [], 1, 1, 0⟩ : DBState Unit) 1
          "linkedin" "connect" "alpha bravo" "done" ["s1"] "" false 5).2 9
        [("completed", none), ("failed", none), ("completed", none)]).workflows.find?
          (fun x => x.id ==
            (record_workflow (fun _ => ()) (⟨[], [], [], 1, 1, 0⟩ : DBState Unit) 1
              "linkedin" "connect" "alpha bravo" "done" ["s1"] "" false 5).2) =
            some w2 ∧
      w2.total_count =
        ([("completed", none), ("failed", none), ("completed", none)] :
          List (String × Option (List String))).length + 1 ∧
      w2.success_count =
        (([("completed", none), ("failed", none), ("completed", none)] :
          List (String × Option (List String))).filter
            fun e => e.1 == "completed").length + 1 ∧
      w2.success_rate = (w2.success_count : ℚ) / (w2.total_count : ℚ))) :=
  ⟨⟨by decide, rfl, by decide⟩,
   c1_success_statistics (fun _ => ()) (⟨[], [], [], 1, 1, 0⟩ : DBState Unit) 1
     "linkedin" "connect" "alpha bravo" "done" ["s1"] "" false 5 9
     [("completed", none), ("failed", none), ("completed", none)] _ _
     (by decide) rfl (by decide)⟩

/-- Every member of a `search_similar` result passed the threshold and comes
from a stored embedding row of the requested sourceKind, with the similarity
the store computed for it. -/
theorem search_similar_mem {V : Type} (dist : V → V → ℚ) (embed : String → V)
    (st : DBState V) (query kind : String) (limit : Nat) (threshold : ℚ)
    (r : SearchResult)
    (hr : r ∈ search_similar dist embed st query kind limit threshold) :
    threshold ≤ r.similarity ∧ ∃ e ∈ st.embeddings, e.table_name = kind ∧
      r.content_id = e.content_id ∧
      r.similarity = 1 - dist e.embedding (embed query) := by
  unfold search_similar at hr
  have h1 := List.mem_filter.mp hr
  refine ⟨of_decide_eq_true h1.2, ?_⟩
  have h2 := (List.take_sublist limit _).subset h1.1
  have h3 := mem_sortBy.mp h2
  rcases List.mem_map.mp h3 with ⟨e, he, heq⟩
  have he2 := List.mem_filter.mp he
  refine ⟨e, he2.1, by simpa using he2.2, ?_, ?_⟩
  · rw [← heq]
  · rw [← heq]

/-- Everything the semantic loop returns was already accumulated or is a
loaded workflow of one of the hits. -/
theorem semanticLoop_mem {V : Type} (st : DBState V) (limit : Nat)
    (results : List SearchResult) :
    ∀ (acc : List WorkflowRow) (w : WorkflowRow),
      w ∈ semanticLoop st limit acc results →
      w ∈ acc ∨ ∃ r ∈ results, get_workflow st r.content_id = some w := by
  induction results with
  | nil =>
    intro acc w hw
    exact Or.inl (by simpa [semanticLoop] using hw)
  | cons r rs ih =>
    intro acc w hw
    rw [semanticLoop] at hw
    rcases hg : get_workflow st r.content_id with _ | wr
    · rw [hg] at hw
      rcases ih acc w hw with h | ⟨r2, hr2, hg2⟩
      · exact Or.inl h
      · exact Or.inr ⟨r2, List.mem_cons_of_mem r hr2, hg2⟩
    · rw [hg] at hw
      have hw2 : w ∈ (if ((acc.map fun x => x.id).contains wr.id) = true
          then semanticLoop st limit acc rs
          else (if limit ≤ (acc ++ [wr]).length then acc ++ [wr]
                else semanticLoop st limit (acc ++ [wr]) rs)) := hw
      by_cases hc : ((acc.map fun x => x.id).contains wr.id) = true
      · rw [if_pos hc] at hw2
        rcases ih acc w hw2 with h | ⟨r2, hr2, hg2⟩
        · exact Or.inl h
        · exact Or.inr ⟨r2, List.mem_cons_of_mem r hr2, hg2⟩
      · rw [if_neg hc] at hw2
        have hsplit : w ∈ acc ++ [wr] ∨
            (w ∈ semanticLoop st limit (acc ++ [wr]) rs) := by
          by_cases hl : limit ≤ (acc ++ [wr]).length
          · rw [if_pos hl] at hw2; exact Or.inl hw2
          · rw [if_neg hl] at hw2; exact Or.inr hw2
        have hofacc : w ∈ acc ++ [wr] →
            w ∈ acc ∨ ∃ r2 ∈ r :: rs, get_workflow st r2.content_id = some w := by
          intro hmem
          rcases List.mem_append.mp hmem with h | h
          · exact Or.inl h
          · have : w = wr := by simpa using h
            exact Or.inr ⟨r, List.mem_cons_self r rs, this ▸ hg⟩
        rcases hsplit with h | h
        · exact hofacc h
        · rcases ih (acc ++ [wr]) w h with h2 | ⟨r2, hr2, hg2⟩
          · exact hofacc h2
          · exact Or.inr ⟨r2, List.mem_cons_of_mem r hr2, hg2⟩

/-- C10: whenever `find_similar_workflows` returns successfully, every
returned workflow is backed by an embedding row of sourceKind "workflows"
whose similarity to the embedded prompt is at least the default threshold
0.5 — the semantic fallback invokes `search_similar` with its default
threshold, so semantic candidates below 0.5 are never added, even when
fewer than `limit` results were found. -/
theorem c10_semantic_fallback_threshold {V : Type} (dist : V → V → ℚ)
    (embed : String → V) (st : DBState V) (user_id : Nat) (prompt : String)
    (category : Option String) (limit : Nat) (ws : List WorkflowRow)
    (hok : find_similar_workflows dist embed st user_id prompt category limit =
      Except.ok ws) :
    ∀ w ∈ ws, ∃ e ∈ st.embeddings, e.table_name = "workflows" ∧
      e.content_id = w.id ∧ (1 : ℚ)/2 ≤ 1 - dist e.embedding (embed prompt) := by
  intro w hw
  revert hok
  simp only [find_similar_workflows]
  cases hrows : (sortBy byWorkflowRank (st.workflows.filter fun x =>
      x.user_id == user_id && (match category with
        | some c => x.category == c
        | none => true))).take (limit * 2) with
  | cons row rest =>
    intro hok
    simp [lexicalFilter, pyAnd] at hok
  | nil =>
    intro hok
    have hok2 : (if ([] : List WorkflowRow).length < limit then
        Except.ok ((semanticLoop st limit []
          (search_similar dist embed st prompt "workflows" limit (1/2))).take limit)
      else
        Except.ok (([] : List WorkflowRow).take limit)) = Except.ok ws := hok
    by_cases hlim : ([] : List WorkflowRow).length < limit
    · rw [if_pos hlim] at hok2
      have hws : ws = (semanticLoop st limit []
          (search_similar dist embed st prompt "workflows" limit (1/2))).take limit := by
        have := Except.ok.inj hok2
        exact this.symm
      rw [hws] at hw
      have hmem := (List.take_sublist limit _).subset hw
      rcases semanticLoop_mem st limit _ [] w hmem with h | ⟨r, hr, hg⟩
      · simp at h
      · rcases search_similar_mem dist embed st prompt "workflows" limit (1/2) r hr
          with ⟨hth, e, he, hkind, hcid, hsim⟩
        have hid : w.id = r.content_id := by
          have := List.find?_some hg
          simpa using this
        exact ⟨e, he, hkind, by rw [← hcid, ← hid], by rw [← hsim]; exact hth⟩
    · rw [if_neg hlim] at hok2
      have hws : ws = [] := by
        have := Except.ok.inj hok2
        simpa using this.symm
      rw [hws] at hw
      simp at hw

/-- The workflow, embedding row and store of the C10 witness: the querying
user owns no workflow, so the lexical phase fetches nothing and the result
comes entirely from the semantic fallback. -/
def c10_workflow : WorkflowRow :=
  { id := 1, user_id := 2, category := "linkedin", intent_type := "connect",
    keywords := "alpha", original_prompt := "alpha", summary := "s",
    steps := ["step"], parameters := "", success_rate := 1, success_count := 1,
    total_count := 1, rating := 5, is_template := false, created_at := 0,
    updated_at := 0 }

def c10_emb : EmbRow Unit := ⟨1, "workflows", "alpha s", (), none, 0, 0⟩

def c10_store : DBState Unit := ⟨[c10_workflow], [], [c10_emb], 2, 1, 1⟩

/-- Witness for C10: the semantic fallback returns the one workflow, whose
embedding has similarity 1 ≥ 0.5. -/
theorem c10_semantic_fallback_threshold_witness :
    (find_similar_workflows (fun _ _ => 0) (fun _ => ()) c10_store 1 "hello"
        none 1 = Except.ok [c10_workflow]) ∧
    ∀ w ∈ [c10_workflow], ∃ e ∈ c10_store.embeddings,
      e.table_name = "workflows" ∧ e.content_id = w.id ∧
      (1 : ℚ)/2 ≤ 1 - (fun _ _ => (0 : ℚ)) e.embedding ((fun _ => ()) "hello") := by
  have hok : find_similar_workflows (fun _ _ => 0) (fun _ => ()) c10_store 1
      "hello" none 1 = Except.ok [c10_workflow] := by
    norm_num [find_similar_workflows, c10_store, c10_workflow, c10_emb,
      lexicalFilter, semanticLoop, get_workflow, search_similar, sortBy,
      insertBy, bySimilarityDesc, byWorkflowRank]
  exact ⟨hok, c10_semantic_fallback_threshold (fun _ _ => 0) (fun _ => ())
    c10_store 1 "hello" none 1 [c10_workflow] hok⟩

/-! ## C6: hybrid search with weights (1, 0) -/

theorem beq_comm_nat (a b : Nat) : (a == b) = (b == a) := by
  by_cases h : a = b
  · subst h; rfl
  · rw [beq_eq_false_iff_ne.mpr h, beq_eq_false_iff_ne.mpr (Ne.symm h)]

/-- The membership test of the keyword loop, written over the projected id
list. -/
theorem contains_map_cid (acc : List HybridEntry) (n : Nat) :
    ((acc.map fun e => e.content_id).contains n) =
      (acc.any fun e => e.content_id == n) := by
  induction acc with
  | nil => rfl
  | cons a l ih =>
    simp only [List.map_cons, List.contains_cons, List.any_cons, ih,
      beq_comm_nat n a.content_id]

/-- A `search_similar` result is sorted by similarity descending. -/
theorem search_similar_sorted {V : Type} (dist : V → V → ℚ)
    (embed : String → V) (st : DBState V) (query kind : String) (limit : Nat)
    (threshold : ℚ) :
    (search_similar dist embed st query kind limit threshold).Pairwise
      (fun a b => bySimilarityDesc a b = true) := by
  unfold search_similar
  exact (sortBy_sorted bySimilarityDesc bySimilarityDesc_trans
      bySimilarityDesc_total _).sublist
    ((List.filter_sublist _).trans (List.take_sublist _ _))

/-- Truncating a larger `search_similar` call gives the smaller call. -/
theorem search_similar_take {V : Type} (dist : V → V → ℚ)
    (embed : String → V) (st : DBState V) (query kind : String)
    (l1 l2 : Nat) (t : ℚ) (h : l1 ≤ l2) :
    (search_similar dist embed st query kind l2 t).take l1 =
      search_similar dist embed st query kind l1 t := by
  unfold search_similar
  have hclosed : ∀ a b : SearchResult, bySimilarityDesc a b = true →
      decide (t ≤ b.similarity) = true → decide (t ≤ a.similarity) = true :=
    fun a b hab hpb => decide_eq_true
      (le_trans (of_decide_eq_true hpb) (of_decide_eq_true hab))
  have hsorted := sortBy_sorted bySimilarityDesc bySimilarityDesc_trans
    bySimilarityDesc_total ((st.embeddings.filter fun e =>
      e.table_name == kind).map fun e =>
        SearchResult.mk e.content_id e.content e.metadata
          (1 - dist e.embedding (embed query)))
  rw [filter_eq_takeWhile_of_sorted bySimilarityDesc _ hclosed _
        (hsorted.sublist (List.take_sublist l2 _)),
      filter_eq_takeWhile_of_sorted bySimilarityDesc _ hclosed _
        (hsorted.sublist (List.take_sublist l1 _)),
      ← take_takeWhile, ← take_takeWhile, List.take_take,
      Nat.min_eq_left h]

/-- The keyword-loop step when the id is already present. -/
theorem hybridStep_present (sw kw : ℚ) (acc : List HybridEntry)
    (k : KeywordResult)
    (hc : (acc.any fun e => e.content_id == k.content_id) = true) :
    hybridStep sw kw acc k = acc.map fun e =>
      if e.content_id == k.content_id then
        { e with
          keyword_score := 1 / (k.relevance + 1),
          combined_score := e.semantic_score * sw +
            (1 / (k.relevance + 1)) * kw }
      else e := by
  unfold hybridStep
  rw [if_pos hc]

/-- The keyword-loop step when the id is new. -/
theorem hybridStep_absent (sw kw : ℚ) (acc : List HybridEntry)
    (k : KeywordResult)
    (hc : (acc.any fun e => e.content_id == k.content_id) = false) :
    hybridStep sw kw acc k = acc ++
      [{ content_id := k.content_id, content := k.content, metadata := none,
         semantic_score := 0, keyword_score := 1 / (k.relevance + 1),
         combined_score := (1 / (k.relevance + 1)) * kw }] := by
  unfold hybridStep
  rw [if_neg (by simp [hc])]

/-- The new entry the keyword loop appends for a fresh id, at weights
(1, 0). -/
def kwOnlyEntry (k : KeywordResult) : HybridEntry :=
  { content_id := k.content_id, content := k.content, metadata := none,
    semantic_score := 0, keyword_score := 1 / (k.relevance + 1),
    combined_score := (1 / (k.relevance + 1)) * 0 }

/-- With semanticWeight 1 and keywordWeight 0, folding the keyword hits over
the semantic seed preserves every (content_id, combined_score) pair and
appends the keyword-only ids with combined score 0. -/
theorem hybridStep_fold_one_zero (kws : List KeywordResult) :
    ∀ acc : List HybridEntry,
      (kws.map fun k => k.content_id).Nodup →
      (∀ e ∈ acc, e.combined_score = e.semantic_score * 1) →
      (kws.foldl (hybridStep 1 0) acc).map
          (fun e => (e.content_id, e.combined_score)) =
        acc.map (fun e => (e.content_id, e.combined_score)) ++
        (kws.filter fun k =>
          !((acc.map fun e => e.content_id).contains k.content_id)).map
          (fun k => (k.content_id, (0 : ℚ))) := by
  induction kws with
  | nil => intro acc _ _; simp
  | cons k ks ih =>
    intro acc hnd hinv
    rw [List.foldl_cons]
    have hnd2 : (ks.map fun k => k.content_id).Nodup :=
      (List.nodup_cons.mp (by simpa using hnd)).2
    have hknotin : k.content_id ∉ ks.map fun x => x.content_id :=
      (List.nodup_cons.mp (by simpa using hnd)).1
    by_cases hc : (acc.any fun e => e.content_id == k.content_id) = true
    · rw [hybridStep_present 1 0 acc k hc]
      have hids : ((acc.map fun e =>
          if e.content_id == k.content_id then
            { e with
              keyword_score := 1 / (k.relevance + 1),
              combined_score := e.semantic_score * 1 +
                (1 / (k.relevance + 1)) * 0 }
          else e).map fun e => e.content_id) =
          acc.map fun e => e.content_id := by
        rw [List.map_map]
        refine List.map_congr_left fun e he => ?_
        by_cases h2 : (e.content_id == k.content_id) = true
        · simp [Function.comp, h2]
        · simp [Function.comp, h2]
      have hproj : ((acc.map fun e =>
          if e.content_id == k.content_id then
            { e with
              keyword_score := 1 / (k.relevance + 1),
              combined_score := e.semantic_score * 1 +
                (1 / (k.relevance + 1)) * 0 }
          else e).map fun e => (e.content_id, e.combined_score)) =
          acc.map fun e => (e.content_id, e.combined_score) := by
        rw [List.map_map]
        refine List.map_congr_left fun e he => ?_
        by_cases h2 : (e.content_id == k.content_id) = true
        · have h3 := hinv e he
          simp only [Function.comp, h2, if_true]
          rw [Prod.mk.injEq]
          exact ⟨rfl, by rw [h3]; ring⟩
        · simp [Function.comp, h2]
      have hinv2 : ∀ e ∈ (acc.map fun e =>
          if e.content_id == k.content_id then
            { e with
              keyword_score := 1 / (k.relevance + 1),
              combined_score := e.semantic_score * 1 +
                (1 / (k.relevance + 1)) * 0 }
          else e),
          e.combined_score = e.semantic_score * 1 := by
        intro e he
        rcases List.mem_map.mp he with ⟨e0, he0, heq⟩
        by_cases h2 : (e0.content_id == k.content_id) = true
        · rw [if_pos h2] at heq
          rw [← heq]
          show e0.semantic_score * 1 + (1 / (k.relevance + 1)) * 0 =
            e0.semantic_score * 1
          ring
        · rw [if_neg h2] at heq
          rw [← heq]
          exact hinv e0 he0
      rw [ih _ hnd2 hinv2, hproj, hids]
      have hkdrop : ((k :: ks).filter fun k2 =>
          !((acc.map fun e => e.content_id).contains k2.content_id)) =
          ks.filter fun k2 =>
            !((acc.map fun e => e.content_id).contains k2.content_id) := by
        rw [List.filter_cons, contains_map_cid, hc]
        simp
      rw [hkdrop]
    · have hcf : (acc.any fun e => e.content_id == k.content_id) = false := by
        simpa using hc
      rw [hybridStep_absent 1 0 acc k hcf]
      have hikw : ({ content_id := k.content_id,
                     content := k.content,
                     metadata := none,
                     semantic_score := 0,
                     keyword_score := 1 / (k.relevance + 1),
                     combined_score := (1 / (k.relevance + 1)) * 0 } :
          HybridEntry) = kwOnlyEntry k := rfl
      rw [hikw]
      have hnewinv : ∀ e ∈ acc ++ [kwOnlyEntry k],
          e.combined_score = e.semantic_score * 1 := by
        intro e he
        rcases List.mem_append.mp he with h | h
        · exact hinv e h
        · have he2 : e = kwOnlyEntry k := by simpa using h
          rw [he2]
          show (1 / (k.relevance + 1)) * 0 = (0 : ℚ) * 1
          ring
      rw [ih _ hnd2 hnewinv]
      have hids2 : ((acc ++ [kwOnlyEntry k]).map fun e => e.content_id) =
          (acc.map fun e => e.content_id) ++ [k.content_id] := by
        rw [List.map_append]
        rfl
      have hfiltercongr : (ks.filter fun k2 =>
          !(((acc ++ [kwOnlyEntry k]).map fun e =>
            e.content_id).contains k2.content_id)) =
          ks.filter fun k2 =>
            !((acc.map fun e => e.content_id).contains k2.content_id) := by
        refine List.filter_congr fun k2 hk2 => ?_
        rw [hids2]
        have hne : k2.content_id ≠ k.content_id := by
          intro heq
          exact hknotin (heq ▸ List.mem_map_of_mem (fun x => x.content_id) hk2)
        have hca : ((acc.map fun e => e.content_id) ++
            [k.content_id]).contains k2.content_id =
            ((acc.map fun e => e.content_id).contains k2.content_id) := by
          have hsingle : ([k.content_id].contains k2.content_id) = false := by
            simp [hne]
          rw [List.contains_eq_any_beq, List.any_append,
            ← List.contains_eq_any_beq, ← List.contains_eq_any_beq, hsingle,
            Bool.or_false]
        rw [hca]
      rw [hfiltercongr]
      have hkkeep : ((k :: ks).filter fun k2 =>
          !((acc.map fun e => e.content_id).contains k2.content_id)) =
          k :: (ks.filter fun k2 =>
            !((acc.map fun e => e.content_id).contains k2.content_id)) := by
        rw [List.filter_cons, contains_map_cid, hcf]
        simp
      rw [hkkeep]
      rw [List.map_append, List.append_assoc]
      congr 1
      rw [List.map_cons, List.map_cons, List.map_nil, List.singleton_append]
      congr 1
      rw [Prod.mk.injEq]
      refine ⟨rfl, ?_⟩
      show (1 / (k.relevance + 1)) * 0 = (0 : ℚ)
      ring

/-- The pair comparator the combined-score sort induces on
(content_id, combined_score) projections. -/
def byScoreDescPair (a b : Nat × ℚ) : Bool := decide (b.2 ≤ a.2)

/-- C6 amended: with semanticWeight 1 and keywordWeight 0, `hybrid_search`
returns the pure semantic ordering (the capped-at-2×limit semantic call)
first, followed by the keyword-only hits at combined score 0, truncated to
`limit`; it produces exactly the pure semantic search ordering when the
keyword phase contributes no id outside the semantic hits — but not in
general (see the counterexample). -/
theorem c6_hybrid_weights_one_zero {V : Type} (dist : V → V → ℚ)
    (embed : String → V) (st : DBState V) (query kind : String) (limit : Nat)
    (oracle : List KeywordResult)
    (hnd : ((search_keyword oracle (limit * 2)).map fun k =>
      k.content_id).Nodup) :
    ((hybrid_search dist embed st query kind limit 1 0 oracle).map fun e =>
        (e.content_id, e.combined_score)) =
      (((search_similar dist embed st query kind (limit * 2) (1/2)).map fun r =>
          (r.content_id, r.similarity)) ++
        (((search_keyword oracle (limit * 2)).filter fun k =>
          !(((search_similar dist embed st query kind (limit * 2) (1/2)).map
            fun r => r.content_id).contains k.content_id)).map fun k =>
          (k.content_id, (0 : ℚ)))).take limit ∧
    ((((search_keyword oracle (limit * 2)).filter fun k =>
        !(((search_similar dist embed st query kind (limit * 2) (1/2)).map
          fun r => r.content_id).contains k.content_id)) = []) →
      ((hybrid_search dist embed st query kind limit 1 0 oracle).map fun e =>
          e.content_id) =
        (search_similar dist embed st query kind limit (1/2)).map fun r =>
          r.content_id) := by
  have hsemsorted := search_similar_sorted dist embed st query kind
    (limit * 2) (1/2)
  have hinv : ∀ e ∈ (search_similar dist embed st query kind (limit * 2)
        (1/2)).map fun r => HybridEntry.mk r.content_id r.content r.metadata
          r.similarity 0 (r.similarity * 1),
      e.combined_score = e.semantic_score * 1 := by
    intro e he
    rcases List.mem_map.mp he with ⟨r, hr, heq⟩
    rw [← heq]
  have hids : (((search_similar dist embed st query kind (limit * 2)
        (1/2)).map fun r => HybridEntry.mk r.content_id r.content r.metadata
          r.similarity 0 (r.similarity * 1)).map fun e => e.content_id) =
      (search_similar dist embed st query kind (limit * 2) (1/2)).map fun r =>
        r.content_id := by
    rw [List.map_map]
    rfl
  have hfold := hybridStep_fold_one_zero (search_keyword oracle (limit * 2))
    _ hnd hinv
  rw [hids] at hfold
  have hseedproj : (((search_similar dist embed st query kind (limit * 2)
        (1/2)).map fun r => HybridEntry.mk r.content_id r.content r.metadata
          r.similarity 0 (r.similarity * 1)).map fun e =>
        (e.content_id, e.combined_score)) =
      (search_similar dist embed st query kind (limit * 2) (1/2)).map fun r =>
        (r.content_id, r.similarity) := by
    rw [List.map_map]
    refine List.map_congr_left fun r hr => ?_
    show (r.content_id, r.similarity * 1) = (r.content_id, r.similarity)
    rw [Prod.mk.injEq]
    exact ⟨rfl, mul_one r.similarity⟩
  rw [hseedproj] at hfold
  have hA : ((search_similar dist embed st query kind (limit * 2) (1/2)).map
      fun r => (r.content_id, r.similarity)).Pairwise
        fun a b => byScoreDescPair a b = true :=
    List.pairwise_map.mpr (hsemsorted.imp fun h => h)
  have hB : ((((search_keyword oracle (limit * 2)).filter fun k =>
      !(((search_similar dist embed st query kind (limit * 2) (1/2)).map
        fun r => r.content_id).contains k.content_id)).map fun k =>
      (k.content_id, (0 : ℚ))).Pairwise fun a b => byScoreDescPair a b = true) :=
    List.pairwise_map.mpr
      (List.pairwise_iff_forall_sublist.mpr fun _ =>
        decide_eq_true (le_refl (0 : ℚ)))
  have hcross : ∀ a ∈ (search_similar dist embed st query kind (limit * 2)
        (1/2)).map fun r => (r.content_id, r.similarity),
      ∀ b ∈ ((search_keyword oracle (limit * 2)).filter fun k =>
        !(((search_similar dist embed st query kind (limit * 2) (1/2)).map
          fun r => r.content_id).contains k.content_id)).map fun k =>
        (k.content_id, (0 : ℚ)),
      byScoreDescPair a b = true := by
    intro a ha b hb
    rcases List.mem_map.mp ha with ⟨r, hr, heqa⟩
    rcases List.mem_map.mp hb with ⟨k, hk, heqb⟩
    have hth : (1 : ℚ)/2 ≤ r.similarity :=
      (search_similar_mem dist embed st query kind (limit * 2) (1/2) r hr).1
    have h0 : (0 : ℚ) ≤ r.similarity := le_trans (by norm_num) hth
    rw [← heqa, ← heqb]
    exact decide_eq_true h0
  have hsorted2 : (((search_similar dist embed st query kind (limit * 2)
        (1/2)).map fun r => (r.content_id, r.similarity)) ++
      (((search_keyword oracle (limit * 2)).filter fun k =>
        !(((search_similar dist embed st query kind (limit * 2) (1/2)).map
          fun r => r.content_id).contains k.content_id)).map fun k =>
        (k.content_id, (0 : ℚ)))).Pairwise
      fun a b => byScoreDescPair a b = true :=
    List.pairwise_append.mpr ⟨hA, hB, hcross⟩
  have hmain : ((hybrid_search dist embed st query kind limit 1 0 oracle).map
      fun e => (e.content_id, e.combined_score)) =
      (((search_similar dist embed st query kind (limit * 2) (1/2)).map
          fun r => (r.content_id, r.similarity)) ++
        (((search_keyword oracle (limit * 2)).filter fun k =>
          !(((search_similar dist embed st query kind (limit * 2) (1/2)).map
            fun r => r.content_id).contains k.content_id)).map fun k =>
          (k.content_id, (0 : ℚ)))).take limit := by
    simp only [hybrid_search]
    rw [List.map_take]
    rw [sortBy_map byCombinedDesc byScoreDescPair
      (fun e => (e.content_id, e.combined_score)) (fun a b => rfl)]
    rw [hfold]
    rw [sortBy_eq_self byScoreDescPair _ hsorted2]
  refine ⟨hmain, fun hempty => ?_⟩
  have h1 : ((hybrid_search dist embed st query kind limit 1 0 oracle).map
      fun e => e.content_id) =
      ((hybrid_search dist embed st query kind limit 1 0 oracle).map
        fun e => (e.content_id, e.combined_score)).map Prod.fst := by
    rw [List.map_map]
    rfl
  rw [h1, hmain, hempty]
  rw [List.map_nil, List.append_nil]
  rw [← List.map_take]
  rw [search_similar_take dist embed st query kind limit (limit * 2) (1/2)
    (by omega)]
  rw [List.map_map]
  rfl

/-- The store, embedding row and keyword oracle of the C6 counterexample:
one semantic hit (content_id 1), one keyword-only hit (content_id 2). -/
def c6_emb : EmbRow Unit := ⟨1, "workflows", "text one", (), none, 0, 0⟩

def c6_store : DBState Unit := ⟨[], [], [c6_emb], 2, 1, 1⟩

def c6_oracle : List KeywordResult := [⟨2, "text two", 0⟩]

/-- C6 counterexample: with semanticWeight 1 and keywordWeight 0 the hybrid
search still appends the keyword-only hit (content_id 2, combined score 0),
so its ordering [1, 2] is not the pure semantic ordering [1] over the same
corpus. -/
theorem c6_keyword_only_hit_appended :
    ((hybrid_search (fun _ _ => 0) (fun _ => ()) c6_store "q" "workflows" 2 1 0
        c6_oracle).map fun e => e.content_id) = [1, 2] ∧
    ((search_similar (fun _ _ => 0) (fun _ => ()) c6_store "q" "workflows" 2
        (1/2)).map fun r => r.content_id) = [1] ∧
    ([1, 2] : List Nat) ≠ [1] := by
  refine ⟨?_, ?_, by decide⟩
  · norm_num [hybrid_search, search_similar, search_keyword, hybridStep,
      c6_store, c6_emb, c6_oracle, sortBy, insertBy, bySimilarityDesc,
      byCombinedDesc]
  · norm_num [search_similar, c6_store, c6_emb, sortBy, insertBy,
      bySimilarityDesc]

/-- Witness for C6 at the same store with a keyword oracle containing no new
id (empty oracle): both conjuncts of the amended theorem, the second giving
exact agreement with pure semantic search. -/
theorem c6_hybrid_weights_one_zero_witness :
    ((((search_keyword ([] : List KeywordResult) (2 * 2)).map fun k =>
        k.content_id).Nodup) ∧ True) ∧
    (((hybrid_search (fun _ _ => 0) (fun _ => ()) c6_store "q" "workflows" 2 1 0
        ([] : List KeywordResult)).map fun e =>
        (e.content_id, e.combined_score)) =
      (((search_similar (fun _ _ => 0) (fun _ => ()) c6_store "q" "workflows"
          (2 * 2) (1/2)).map fun r => (r.content_id, r.similarity)) ++
        (((search_keyword ([] : List KeywordResult) (2 * 2)).filter fun k =>
          !(((search_similar (fun _ _ => 0) (fun _ => ()) c6_store "q"
            "workflows" (2 * 2) (1/2)).map
            fun r => r.content_id).contains k.content_id)).map fun k =>
          (k.content_id, (0 : ℚ)))).take 2 ∧
    ((((search_keyword ([] : List KeywordResult) (2 * 2)).filter fun k =>
        !(((search_similar (fun _ _ => 0) (fun _ => ()) c6_store "q"
          "workflows" (2 * 2) (1/2)).map
          fun r => r.content_id).contains k.content_id)) = []) →
      ((hybrid_search (fun _ _ => 0) (fun _ => ()) c6_store "q" "workflows" 2
          1 0 ([] : List KeywordResult)).map fun e => e.content_id) =
        (search_similar (fun _ _ => 0) (fun _ => ()) c6_store "q" "workflows" 2
          (1/2)).map fun r => r.content_id)) :=
  ⟨⟨by decide, trivial⟩,
   c6_hybrid_weights_one_zero (fun _ _ => 0) (fun _ => ()) c6_store "q"
     "workflows" 2 ([] : List KeywordResult) (by decide)⟩

end Kite
